import Mathlib

/-!
# Verification of the portfolio performance and contribution analysis engine

Shallow embedding of `src/portfolio_analyzer.py` (class `PortfolioAnalyzer`):
`calculate_portfolio_performance`, `_calculate_max_drawdown`,
`analyze_stock_contributions` and `generate_optimization_suggestions`.

Modelling conventions:

* Python/numpy floating-point scalars are modelled exactly by `PFloat`:
  either a finite value `fin a b` denoting the real number `a * sqrt b`
  (plain rationals are `fin q 1`), or the IEEE special values `inf`,
  `neginf`, `nan`.  The `a * sqrt b` shape is closed under every product,
  quotient, square root and comparison the analyzer performs (correlations,
  betas, standard deviations, Sharpe ratios are of this shape); sums are
  only ever taken of plain rationals, matching the source.
* Quantities that stay rational in the source (prices, portfolio values,
  weights, returns) are modelled as `ℚ`.  Divisions of those rationals use
  Lean division, which agrees with float division whenever the divisor is
  nonzero; theorems whose source expression could divide by zero carry the
  corresponding nonzero hypothesis (the spec data model guarantees positive
  prices and positive average costs).
* A Python `dict` preserving insertion order is modelled as an association
  list; `dict` lookup is `List.lookup`.
* Exceptions escaping a function are modelled by `Except PyErr`; `PyErr`
  enumerates the Python builtin exception classes the analyzer can raise.
-/

/- Batteries marks the arithmetic on `ℚ` irreducible, which would keep
`decide` from evaluating the model on concrete inputs; restore the default
transparency for this file. -/
attribute [local semireducible] Rat.add Rat.mul Rat.sub Rat.inv Rat.ofScientific

namespace PortfolioAnalyzer

/-- Python builtin exception classes that the analyzer code can raise. -/
inductive PyErr where
  /-- e.g. `list(stock_data.values())[0]` on an empty dict, `.iloc[-1]` on an
  empty series. -/
  | indexError
  /-- e.g. `None * quantity`, `None["Close"]`. -/
  | typeError
  /-- e.g. `DataFrame([]).set_index("date")` when the frame has no columns. -/
  | keyError
deriving DecidableEq, Repr

/-- Exact model of a numpy float scalar: `fin a b` denotes the real number
`a * Real.sqrt b` (with `0 ≤ b` for every value the analyzer builds; a plain
rational `q` is `fin q 1`), plus the IEEE special values. -/
inductive PFloat where
  | fin : ℚ → ℚ → PFloat
  | inf : PFloat
  | neginf : PFloat
  | nan : PFloat
deriving DecidableEq, Repr

namespace PFloat

/-- Embed a rational float value. -/
def ofQ (q : ℚ) : PFloat := .fin q 1

/-- Sign of a finite value `a * sqrt b` (`0` when the value is zero). -/
def finSign (a b : ℚ) : ℤ :=
  if a = 0 ∨ b = 0 then 0 else if 0 < a then 1 else -1

/-- Python truthiness of a float: `0.0` is falsy; `nan` and infinities are
truthy. -/
def truthy : PFloat → Bool
  | .fin a b => !(a = 0 ∨ b = 0 : Bool)
  | _ => true

/-- IEEE `<` on modelled floats.  Any comparison involving `nan` is false.
For finite values the comparison `a₁√b₁ < a₂√b₂` is decided exactly by sign
analysis and squaring. -/
def lt : PFloat → PFloat → Bool
  | .nan, _ => false
  | _, .nan => false
  | .neginf, .neginf => false
  | .neginf, _ => true
  | _, .neginf => false
  | .inf, _ => false
  | .fin _ _, .inf => true
  | .fin a₁ b₁, .fin a₂ b₂ =>
      let s₁ := finSign a₁ b₁
      let s₂ := finSign a₂ b₂
      if s₁ < s₂ then true
      else if s₂ < s₁ then false
      else if s₁ = 0 then false
      else if s₁ = 1 then a₁ ^ 2 * b₁ < a₂ ^ 2 * b₂
      else a₂ ^ 2 * b₂ < a₁ ^ 2 * b₁

/-- IEEE equality of modelled float values (`nan` equal to nothing); finite
values `a₁√b₁ = a₂√b₂` decided by sign and squares. -/
def feq : PFloat → PFloat → Bool
  | .inf, .inf => true
  | .neginf, .neginf => true
  | .fin a₁ b₁, .fin a₂ b₂ =>
      finSign a₁ b₁ = finSign a₂ b₂ ∧ a₁ ^ 2 * b₁ = a₂ ^ 2 * b₂
  | _, _ => false

/-- numpy multiplication.  `a₁√b₁ * a₂√b₂ = (a₁a₂)√(b₁b₂)`; `nan` is
absorbing; `inf * 0 = nan`. -/
def mul : PFloat → PFloat → PFloat
  | .nan, _ => .nan
  | _, .nan => .nan
  | .inf, .inf => .inf
  | .inf, .neginf => .neginf
  | .neginf, .inf => .neginf
  | .neginf, .neginf => .inf
  | .inf, .fin a b =>
      if finSign a b = 0 then .nan else if finSign a b = 1 then .inf else .neginf
  | .fin a b, .inf =>
      if finSign a b = 0 then .nan else if finSign a b = 1 then .inf else .neginf
  | .neginf, .fin a b =>
      if finSign a b = 0 then .nan else if finSign a b = 1 then .neginf else .inf
  | .fin a b, .neginf =>
      if finSign a b = 0 then .nan else if finSign a b = 1 then .neginf else .inf
  | .fin a₁ b₁, .fin a₂ b₂ => .fin (a₁ * a₂) (b₁ * b₂)

/-- numpy division.  For finite operands,
`(a₁√b₁) / (a₂√b₂) = (a₁ / (a₂ b₂)) √(b₁ b₂)` when the divisor is nonzero;
division of a nonzero value by `0.0` gives a signed infinity, `0.0 / 0.0`
gives `nan`. -/
def div : PFloat → PFloat → PFloat
  | .nan, _ => .nan
  | _, .nan => .nan
  | .inf, .inf => .nan
  | .inf, .neginf => .nan
  | .neginf, .inf => .nan
  | .neginf, .neginf => .nan
  | .fin _ _, .inf => .fin 0 1
  | .fin _ _, .neginf => .fin 0 1
  | .inf, .fin a b =>
      if finSign a b = -1 then .neginf else .inf
  | .neginf, .fin a b =>
      if finSign a b = -1 then .inf else .neginf
  | .fin a₁ b₁, .fin a₂ b₂ =>
      if finSign a₂ b₂ = 0 then
        match finSign a₁ b₁ with
        | 0 => .nan
        | 1 => .inf
        | _ => .neginf
      else .fin (a₁ / (a₂ * b₂)) (b₁ * b₂)

/-- Division of two rational float values (e.g. a pandas `pct_change` step),
with the IEEE zero-divisor behaviour. -/
def divQ (x y : ℚ) : PFloat :=
  if y = 0 then (if x = 0 then .nan else if 0 < x then .inf else .neginf)
  else .fin (x / y) 1

/-- Add a rational to a modelled float.  The sum of a rational and an
irrational `a√b` (`b ≠ 1`, value nonzero) leaves the `a√b` fragment; that
case is unreachable in this development (the analyzer only ever adds
rationals to rationals) and is mapped to `nan`. -/
def addQ : PFloat → ℚ → PFloat
  | .fin a b, q =>
      if b = 1 then .fin (a + q) 1
      else if a = 0 ∨ b = 0 then .fin q 1
      else .nan
  | .inf, _ => .inf
  | .neginf, _ => .neginf
  | .nan, _ => .nan

/-- Subtract a rational from a modelled float (same fragment remark as
`PFloat.addQ`). -/
def subQ : PFloat → ℚ → PFloat
  | .fin a b, q =>
      if b = 1 then .fin (a - q) 1
      else if a = 0 ∨ b = 0 then .fin (-q) 1
      else .nan
  | .inf, _ => .inf
  | .neginf, _ => .neginf
  | .nan, _ => .nan

/-- numpy `**` with a rational exponent.  `x ** 0 = 1` for every `x`
(including `nan`); `nan ** e = nan` otherwise; powers of `±inf` follow IEEE;
for a rational base the result is exact when the exponent is an integer, and
a negative base with a non-integral exponent gives `nan` (as in numpy).  A
positive non-unit rational base with a non-integral exponent has an
irrational value outside the modelled fragment; that case is unreachable in
this development and is mapped to `nan`. -/
def powQ (x : PFloat) (e : ℚ) : PFloat :=
  if e = 0 then .fin 1 1
  else
    match x with
    | .nan => .nan
    | .inf => if 0 < e then .inf else .fin 0 1
    | .neginf =>
        if 0 < e then (if e.den = 1 ∧ e.num % 2 = 1 then .neginf else .inf)
        else .fin 0 1
    | .fin a b =>
        if a = 0 ∨ b = 0 then (if 0 < e then .fin 0 1 else .inf)
        else if b = 1 then
          if a = 1 then .fin 1 1
          else if e.den = 1 then .fin (a ^ e.num) 1
          else .nan
        else .nan

/-- The rational value of a modelled float, when it has one. -/
def ratValue : PFloat → Option ℚ
  | .fin a b => if b = 1 then some a else if a = 0 ∨ b = 0 then some 0 else none
  | _ => none

/-- Decides `a₁√b₁ < a₂√b₂ + c` exactly (used for the absolute-difference
comparison below).  The sign of the right-hand side is decided with `lt`
and `feq` against the single radical `a₂√b₂`, then one squaring reduces the
mixed comparison to a single-radical comparison again. -/
def radLtAdd (a₁ b₁ a₂ b₂ c : ℚ) : Bool :=
  let s₁ := finSign a₁ b₁
  -- sign of a₂√b₂ + c
  let rhsPos := lt (.fin (-c) 1) (.fin a₂ b₂)
  let rhsZero := feq (.fin a₂ b₂) (.fin (-c) 1)
  if rhsPos then
    if s₁ ≤ 0 then true
    else
      -- both sides positive: square once; cross term stays a single radical
      lt (.fin (a₁ ^ 2 * b₁ - a₂ ^ 2 * b₂ - c ^ 2) 1) (.fin (2 * c * a₂) b₂)
  else if rhsZero then s₁ < 0
  else
    if 0 ≤ s₁ then false
    else
      -- both sides negative: compare squares the other way round
      lt (.fin (2 * c * a₂) b₂) (.fin (a₁ ^ 2 * b₁ - a₂ ^ 2 * b₂ - c ^ 2) 1)

/-- Model of the Python comparison `abs(x - y) < c` on floats (`c` a
positive rational literal): false whenever `nan` or an infinity is involved,
and decided exactly on finite values. -/
def absSubLt : PFloat → PFloat → ℚ → Bool
  | .fin a₁ b₁, .fin a₂ b₂, c =>
      radLtAdd a₁ b₁ a₂ b₂ c && radLtAdd a₂ b₂ a₁ b₁ c
  | _, _, _ => false

end PFloat

/-! ## Statistics helpers (pandas semantics) -/

/-- Sum of pairwise products, `Σ xᵢ yᵢ` (over the common length). -/
def dot (xs ys : List ℚ) : ℚ := (List.zipWith (· * ·) xs ys).sum

/-- Arithmetic mean (pandas `mean`; Lean division gives `0` for the empty
list, which the analyzer never takes the mean of). -/
def mean (l : List ℚ) : ℚ := l.sum / l.length

/-- The list recentred at its mean. -/
def centered (l : List ℚ) : List ℚ := l.map (· - mean l)

/-- `Σ (xᵢ - x̄)(yᵢ - ȳ)`, the numerator shared by pandas covariance and
correlation. -/
def covSum (xs ys : List ℚ) : ℚ := dot (centered xs) (centered ys)

/-- `Σ (xᵢ - x̄)²`. -/
def varSum (xs : List ℚ) : ℚ := covSum xs xs

/-- pandas `Series.corr` (Pearson):
`Σ(x-x̄)(y-ȳ) / sqrt(Σ(x-x̄)² * Σ(y-ȳ)²)`, which is
`fin (c / (vx*vy)) (vx*vy)` in the `a√b` representation; `nan` when either
series has zero variance. -/
def pearson (xs ys : List ℚ) : PFloat :=
  let c := covSum xs ys
  let vx := varSum xs
  let vy := varSum ys
  if vx * vy = 0 then .nan else .fin (c / (vx * vy)) (vx * vy)

/-- pandas `Series.std` (ddof = 1) of a list of rationals: `nan` with fewer
than two observations, else `sqrt (Σ(x-x̄)² / (n-1))`, i.e.
`fin 1 (varSum l / (n-1))`. -/
def stdQ (l : List ℚ) : PFloat :=
  if l.length ≤ 1 then .nan
  else .fin 1 (varSum l / (l.length - 1 : ℚ))

/-- pandas `Series.std` over a float column: `nan` entries are skipped
(`skipna`); a remaining non-rational entry (an infinity — the only
non-rational floats this development feeds to `std`) makes the result
`nan`, as in numpy. -/
def stdF (l : List PFloat) : PFloat :=
  let xs := l.filter (· ≠ PFloat.nan)
  if xs.all (fun x => (PFloat.ratValue x).isSome) then
    stdQ (xs.filterMap PFloat.ratValue)
  else .nan

/-- pandas `Series.min` (`skipna`): minimum of the non-`nan` entries, `nan`
when none remain. -/
def minF (l : List PFloat) : PFloat :=
  let xs := l.filter (· ≠ PFloat.nan)
  match xs with
  | [] => .nan
  | x :: rest => rest.foldl (fun acc y => if PFloat.lt y acc then y else acc) x

/-- Python `round(x, 2)`: round to two decimal places, ties to even (the
IEEE default used by `round` and `np.round`). -/
def round2 (q : ℚ) : ℚ :=
  let s := q * 100
  let f : ℤ := Rat.floor s
  let frac := s - f
  let r : ℤ :=
    if frac < 1 / 2 then f
    else if 1 / 2 < frac then f + 1
    else if f % 2 = 0 then f else f + 1
  (r : ℚ) / 100

/-! ## Data model -/

/-- A trading date (only equality and ordering by position matter). -/
abbrev Date := ℕ

abbrev Sym := String

/-- The `"Close"` column of one fetched price history: date-indexed closing
prices, as used by the analyzer. -/
abbrev Series := List (Date × ℚ)

/-- `stock_data`: insertion-ordered mapping symbol → price history. -/
abbrev StockData := List (Sym × Series)

/-- The loaded `portfolio.json`: `holdings` (symbol → share quantity) and
`avg_costs` (symbol → average acquisition cost). -/
structure Portfolio where
  holdings : List (Sym × ℚ)
  avg_costs : List (Sym × ℚ)

/-- The opaque financial-metrics blob attached to each contribution
(passthrough from the data collector; never interpreted). -/
abbrev FinBlob := List (String × Option ℚ)

/-- One entry of the `contributions` dict built by
`analyze_stock_contributions` (the `return` key is called `ret` because
`return` is reserved in Lean). -/
structure Contribution where
  quantity : ℚ
  current_price : ℚ
  current_value : ℚ
  weight : ℚ
  ret : ℚ
  contribution_to_return : ℚ
  correlation_to_market : Option PFloat
  beta : Option PFloat
  financial_metrics : FinBlob
deriving DecidableEq, Repr

/-- The `performance_metrics` dict of `calculate_portfolio_performance`. -/
structure PerfMetrics where
  total_return : PFloat
  annualized_return : PFloat
  volatility : PFloat
  sharpe_ratio : PFloat
  max_drawdown : PFloat
deriving DecidableEq, Repr

inductive SugType where
  | Diversification | Performance | Correlation | Portfolio
deriving DecidableEq, Repr

inductive Severity where
  | low | medium | high
deriving DecidableEq, Repr

/-- One suggestion dict (the free-text `reasoning` entry is presentation
only and is not modelled). -/
structure Suggestion where
  type : SugType
  symbol : String
  action : String
  severity : Severity
deriving DecidableEq, Repr

/-! ## `calculate_portfolio_performance` -/

/-- The inner loop of the value-series construction: for one date, sum
`price * quantity` over every holding whose symbol is in `stock_data` and
whose series has a quote for that date (`daily_value` in the source). -/
def dailyValue (holdings : List (Sym × ℚ)) (stock_data : StockData) (d : Date) : ℚ :=
  holdings.foldl (fun acc sq =>
    match (stock_data.lookup sq.1).bind (fun ser => ser.lookup d) with
    | some price => acc + price * sq.2
    | none => acc) 0

/-- pandas `pct_change` over the value column: a leading `nan`, then
`v₍ᵢ₊₁₎ / vᵢ - 1` with IEEE behaviour on zero denominators. -/
def pctChangeF (values : List ℚ) : List PFloat :=
  match values with
  | [] => []
  | _ :: tail =>
      .nan :: (values.zip tail).map (fun pr => PFloat.subQ (PFloat.divQ pr.2 pr.1) 1)

/-- Running maximum of the tail given the maximum so far. -/
def cummaxGo (m : ℚ) : List ℚ → List ℚ
  | [] => []
  | x :: xs => max m x :: cummaxGo (max m x) xs

/-- pandas `Series.cummax`. -/
def cummax : List ℚ → List ℚ
  | [] => []
  | x :: xs => x :: cummaxGo x xs

/-- `_calculate_max_drawdown`: `min((price / cummax(price)) - 1)`. -/
def calculate_max_drawdown (price_series : List ℚ) : PFloat :=
  let roll_max := cummax price_series
  let drawdown := (price_series.zip roll_max).map
    (fun pr => PFloat.subQ (PFloat.divQ pr.1 pr.2) 1)
  minF drawdown

/-- The metrics block of `calculate_portfolio_performance`, computed from
the (nonempty) portfolio value column. -/
def metricsOfValues (values : List ℚ) : PerfMetrics :=
  let daily_returns := pctChangeF values
  let initial_value := values.headD 0            -- `.iloc[0]`, caller guarantees nonempty
  let cumulative := values.map (fun v => PFloat.subQ (PFloat.divQ v initial_value) 1)
  let total_return := cumulative.getLastD .nan   -- `.iloc[-1]`, nonempty
  let annualized_return :=
    PFloat.subQ (PFloat.powQ (PFloat.addQ total_return 1) (365 / (values.length : ℚ))) 1
  let volatility := PFloat.mul (stdF daily_returns) (.fin 1 252)   -- std * sqrt(252)
  { total_return := total_return
    annualized_return := annualized_return
    volatility := volatility
    sharpe_ratio := PFloat.div annualized_return volatility
    max_drawdown := calculate_max_drawdown values }

/-- `calculate_portfolio_performance(stock_data)`: value series over the
first fetched symbol dates, then the summary metrics.  An empty
`stock_data` dict raises `IndexError` at `list(stock_data.values())[0]`; an
empty first series gives an empty row list, on which
`DataFrame.set_index("date")` raises `KeyError`. -/
def calculate_portfolio_performance (p : Portfolio) (stock_data : StockData) :
    Except PyErr (List (Date × ℚ) × PerfMetrics) :=
  match stock_data with
  | [] => .error .indexError
  | (_, first_stock) :: _ =>
      let dates := first_stock.map (·.1)
      let history := dates.map (fun d => (d, dailyValue p.holdings stock_data d))
      if history.isEmpty then .error .keyError
      else .ok (history, metricsOfValues (history.map (·.2)))

/-! ## `analyze_stock_contributions` -/

/-- `Close.pct_change().dropna()` keeping the date index: the simple daily
return at each date from the second onwards.  (For the positive prices the
spec data model guarantees, no later row is NaN, so `dropna` removes
exactly the leading row.) -/
def dailyReturns : Series → List (Date × ℚ)
  | [] => []
  | r :: tail => ((r :: tail).zip tail).map (fun pr => (pr.2.1, pr.2.2 / pr.1.2 - 1))

/-- `pd.concat([stock_returns, nifty_returns], axis=1).dropna()`: the pairs
of same-date returns (inner join on dates; for strictly increasing date
indexes the join order is the stock-series order). -/
def alignReturns (stockR niftyR : List (Date × ℚ)) : List (ℚ × ℚ) :=
  stockR.filterMap (fun dr => (niftyR.lookup dr.1).map (fun r2 => (dr.2, r2)))

/-- The correlation/beta block of `analyze_stock_contributions` for one
symbol: `(None, None)` when the benchmark is unavailable or when the
date-aligned return pairs are not more than 30, else Pearson correlation of
the aligned returns and `beta = correlation * (std(stock) / std(nifty))`
(standard deviations of the two full return series). -/
def corrBeta (series : Series) (nifty : Option Series) :
    Option PFloat × Option PFloat :=
  match nifty with
  | none => (none, none)
  | some nifty_series =>
      let stock_returns := dailyReturns series
      let nifty_returns := dailyReturns nifty_series
      let aligned := alignReturns stock_returns nifty_returns
      if !aligned.isEmpty && 30 < aligned.length then
        let correlation := pearson (aligned.map (·.1)) (aligned.map (·.2))
        let beta := PFloat.mul correlation
          (PFloat.div (stdQ (stock_returns.map (·.2))) (stdQ (nifty_returns.map (·.2))))
        (some correlation, some beta)
      else (none, none)

/-- The first loop of `analyze_stock_contributions`: accumulate
`avg_buy_price * quantity` over the holdings whose symbol is in
`stock_data`.  A missing average cost is Python `None`, and
`None * quantity` raises `TypeError`. -/
def totalInvestmentGo (avg_costs : List (Sym × ℚ)) (stock_data : StockData)
    (acc : ℚ) : List (Sym × ℚ) → Except PyErr ℚ
  | [] => .ok acc
  | (symbol, quantity) :: rest =>
      if (stock_data.lookup symbol).isSome then
        match avg_costs.lookup symbol with
        | none => .error .typeError
        | some avg_buy_price =>
            totalInvestmentGo avg_costs stock_data (acc + avg_buy_price * quantity) rest
      else totalInvestmentGo avg_costs stock_data acc rest

/-- The body of the second loop of `analyze_stock_contributions` for one
priced holding: latest price (`IndexError` on an empty series), cost-basis
return, weight against the shared total investment, correlation/beta, and
the stored dict entry with its four rounded fields. -/
def mkContribution (p : Portfolio) (nifty : Option Series)
    (fetchMetrics : Sym → FinBlob) (total_investment : ℚ)
    (symbol : Sym) (quantity : ℚ) (series : Series) : Except PyErr Contribution :=
  match series.getLast? with
  | none => .error .indexError
  | some last =>
      let latest_price := last.2
      match p.avg_costs.lookup symbol with
      | none => .error .typeError
      | some avg_buy_price =>
          let initial_price := avg_buy_price
          let current_value := latest_price * quantity
          let weight := current_value / total_investment
          let stock_return := latest_price / initial_price - 1
          let contribution_to_return := stock_return * weight
          let cb := corrBeta series nifty
          .ok { quantity := quantity
                current_price := round2 latest_price
                current_value := round2 current_value
                weight := weight
                ret := round2 stock_return
                contribution_to_return := round2 contribution_to_return
                correlation_to_market := cb.1
                beta := cb.2
                financial_metrics := fetchMetrics symbol }

/-- The second loop of `analyze_stock_contributions`: one dict entry per
holding present in `stock_data`, in holdings order. -/
def contributionsGo (p : Portfolio) (stock_data : StockData)
    (nifty : Option Series) (fm : Sym → FinBlob) (total_investment : ℚ) :
    List (Sym × ℚ) → Except PyErr (List (Sym × Contribution))
  | [] => .ok []
  | (symbol, quantity) :: rest =>
      match stock_data.lookup symbol with
      | none => contributionsGo p stock_data nifty fm total_investment rest
      | some series => do
          let c ← mkContribution p nifty fm total_investment symbol quantity series
          let out ← contributionsGo p stock_data nifty fm total_investment rest
          .ok ((symbol, c) :: out)

/-- `analyze_stock_contributions(stock_data)` against benchmark data
`nifty` (`self.nifty_data`, `None` when the fetch failed) and the external
financial-metrics supplier `fm`. -/
def analyze_stock_contributions (p : Portfolio) (stock_data : StockData)
    (nifty : Option Series) (fm : Sym → FinBlob) :
    Except PyErr (List (Sym × Contribution)) := do
  let total_investment ← totalInvestmentGo p.avg_costs stock_data 0 p.holdings
  contributionsGo p stock_data nifty fm total_investment p.holdings

/-! ## `generate_optimization_suggestions` -/

/-- The `for i / for j in range(i+1, ...)` enumeration of unordered index
pairs, in loop order. -/
def upperPairs {α : Type} : List α → List (α × α)
  | [] => []
  | x :: xs => xs.map (fun y => (x, y)) ++ upperPairs xs

/-- The rule-4 pair test: Python
`corr1 and corr2 and abs(corr1 - corr2) < 0.2`, where `corr1` and `corr2`
are dict lookups — `None` and `0.0` are falsy, `nan` is truthy but fails
the comparison. -/
def pairCondition (contributions : List (Sym × Contribution)) (s1 s2 : Sym) : Bool :=
  match (contributions.lookup s1).bind (·.correlation_to_market),
        (contributions.lookup s2).bind (·.correlation_to_market) with
  | some c1, some c2 => c1.truthy && c2.truthy && PFloat.absSubLt c1 c2 (1 / 5)
  | _, _ => false

/-- Rule 1 of `generate_optimization_suggestions`: overconcentration — any
stock with weight > 0.20. -/
def divSuggestions (contributions : List (Sym × Contribution)) : List Suggestion :=
  contributions.filterMap (fun sc =>
    if sc.2.weight > 1 / 5 then
      some { type := .Diversification, symbol := sc.1,
             action := "Consider reducing position",
             severity := Severity.medium }
    else none)

/-- Rule 2 of `generate_optimization_suggestions`: stocks with negative
return also underperforming the market by more than 5 points; severity high
below -10%. -/
def perfSuggestions (market_return : ℚ)
    (contributions : List (Sym × Contribution)) : List Suggestion :=
  contributions.filterMap (fun sc =>
    if sc.2.ret < 0 ∧ sc.2.ret < market_return - 1 / 20 then
      some { type := .Performance, symbol := sc.1,
             action := "Consider replacing or reducing",
             severity := if sc.2.ret < -(1 / 10 : ℚ) then Severity.high
                         else Severity.medium }
    else none)

/-- The `high_correlation_pairs` list of rule 4: the `i < j` loop over the
dict keys, filtered by `pairCondition`. -/
def highCorrelationPairs (contributions : List (Sym × Contribution)) :
    List (Sym × Sym) :=
  (upperPairs (contributions.map (·.1))).filter
    (fun pr => pairCondition contributions pr.1 pr.2)

/-- Rule 4 of `generate_optimization_suggestions`: one low-severity
suggestion naming up to the first three recorded pairs, when any exist. -/
def corrSuggestion (contributions : List (Sym × Contribution)) : List Suggestion :=
  if !(highCorrelationPairs contributions).isEmpty then
    [{ type := SugType.Correlation,
       symbol := String.intercalate ", "
        (((highCorrelationPairs contributions).take 3).map
          (fun pr => pr.1 ++ "/" ++ pr.2)),
       action := "Consider replacing one from each pair",
       severity := Severity.low }]
  else []

/-- Rule 5 of `generate_optimization_suggestions`: the overall assessment
when the Sharpe ratio is below 0.5. -/
def portSuggestion (metrics : PerfMetrics) : List Suggestion :=
  if PFloat.lt metrics.sharpe_ratio (.fin (1 / 2) 1) then
    [{ type := SugType.Portfolio, symbol := "OVERALL",
       action := "Consider risk/return optimization",
       severity := Severity.medium }]
  else []

/-- `generate_optimization_suggestions(performance, contributions)`: the
four rule blocks, appended in source order.  `self.nifty_data["Close"]`
raises `TypeError` when the benchmark fetch returned `None`, and
`.iloc[-1]` raises `IndexError` on an empty benchmark series. -/
def generate_optimization_suggestions (metrics : PerfMetrics)
    (contributions : List (Sym × Contribution)) (nifty : Option Series) :
    Except PyErr (List Suggestion) :=
  match nifty with
  | none => .error .typeError
  | some nifty_prices =>
      match nifty_prices.getLast?, nifty_prices.head? with
      | some last, some first =>
          let market_return := last.2 / first.2 - 1
          .ok (divSuggestions contributions
            ++ perfSuggestions market_return contributions
            ++ corrSuggestion contributions
            ++ portSuggestion metrics)
      | _, _ => .error .indexError

/-! ## Claim-side definitions

Independent formulations of the quantities the specification talks about,
to be compared with what the embedded code computes. -/

/-- What one holding contributes to the portfolio value on one date per the
spec: quantity times that day closing price if the holding has a quote,
nothing otherwise. -/
def quoteValue (stock_data : StockData) (d : Date) (sq : Sym × ℚ) : ℚ :=
  match (stock_data.lookup sq.1).bind (fun ser => ser.lookup d) with
  | some price => price * sq.2
  | none => 0

/-- Total current value of the priced holdings: latest close times
quantity, summed over the holdings present in the price data. -/
def currentValueSum (p : Portfolio) (stock_data : StockData) : ℚ :=
  (p.holdings.map (fun sq =>
    match stock_data.lookup sq.1 with
    | some ser =>
        match ser.getLast? with
        | some last => last.2 * sq.2
        | none => 0
    | none => 0)).sum

/-- Total cost basis of the priced holdings: average cost times quantity,
summed over the holdings present in the price data. -/
def costBasisSum (p : Portfolio) (stock_data : StockData) : ℚ :=
  (p.holdings.map (fun sq =>
    match stock_data.lookup sq.1, p.avg_costs.lookup sq.1 with
    | some _, some avg => avg * sq.2
    | _, _ => 0)).sum

/-- The rational value of a contribution correlation entry, when the entry
is present and rational. -/
def corrValue (contributions : List (Sym × Contribution)) (sym : Sym) : Option ℚ :=
  ((contributions.lookup sym).bind (·.correlation_to_market)).bind PFloat.ratValue

/-- The symbol pairs the (amended) claim C7 describes: unordered pairs, in
symbol iteration order, whose correlations are both non-null, nonzero and
less than `0.2` apart. -/
def claimPairs (contributions : List (Sym × Contribution)) : List (Sym × Sym) :=
  (upperPairs (contributions.map (·.1))).filter (fun pr =>
    match corrValue contributions pr.1, corrValue contributions pr.2 with
    | some q1, some q2 => q1 ≠ 0 ∧ q2 ≠ 0 ∧ |q1 - q2| < 1 / 5
    | _, _ => false)

/-- Concrete 32-point price series (alternating 1 and 2), giving 31 daily
returns of nonzero variance; used as input data in witnesses. -/
def altSeries : Series :=
  (List.range 32).map (fun i => (i, if i % 2 = 0 then (1 : ℚ) else 2))

/-- A placeholder contribution record (used only as the default of a
`headD` in witness statements). -/
def blankContribution : Contribution :=
  ⟨0, 0, 0, 0, 0, 0, none, none, []⟩

/-! ## Lemmas about `calculate_portfolio_performance` -/

theorem dailyValue_go (sd : StockData) (d : Date) (hs : List (Sym × ℚ)) :
    ∀ acc : ℚ,
      hs.foldl (fun acc sq =>
        match (sd.lookup sq.1).bind (fun ser => ser.lookup d) with
        | some price => acc + price * sq.2
        | none => acc) acc
      = acc + (hs.map (quoteValue sd d)).sum := by
  induction hs with
  | nil => intro acc; simp
  | cons x xs ih =>
      intro acc
      simp only [List.foldl_cons, List.map_cons, List.sum_cons]
      have hq : quoteValue sd d x
          = match (sd.lookup x.1).bind (fun ser => ser.lookup d) with
            | some price => price * x.2
            | none => 0 := rfl
      cases h : (sd.lookup x.1).bind (fun ser => ser.lookup d) with
      | none => simp only [h, hq, ih]; ring
      | some price => simp only [h, hq, ih]; ring

/-- The value loop computes, for each date, the sum of quantity times close
over the holdings with a quote that day. -/
theorem dailyValue_eq_sum (hs : List (Sym × ℚ)) (sd : StockData) (d : Date) :
    dailyValue hs sd d = (hs.map (quoteValue sd d)).sum := by
  unfold dailyValue
  rw [dailyValue_go]
  ring

/-- Evaluation of `calculate_portfolio_performance` when the first fetched
series is nonempty. -/
theorem calculate_ok (p : Portfolio) (s₀ : Sym) (ser : Series) (rest : StockData)
    (h : ser ≠ []) :
    calculate_portfolio_performance p ((s₀, ser) :: rest) =
      .ok (ser.map (fun dp => (dp.1, dailyValue p.holdings ((s₀, ser) :: rest) dp.1)),
           metricsOfValues
             (ser.map (fun dp => dailyValue p.holdings ((s₀, ser) :: rest) dp.1))) := by
  unfold calculate_portfolio_performance
  have hmm :
      (ser.map (fun dp => dp.1)).map
          (fun d => (d, dailyValue p.holdings ((s₀, ser) :: rest) d))
        = ser.map (fun dp => (dp.1, dailyValue p.holdings ((s₀, ser) :: rest) dp.1)) := by
    rw [List.map_map]; rfl
  simp only [hmm]
  have hne : (ser.map
      (fun dp => (dp.1, dailyValue p.holdings ((s₀, ser) :: rest) dp.1))).isEmpty = false := by
    cases ser with
    | nil => exact absurd rfl h
    | cons a l => rfl
  simp only [hne, if_false, List.map_map]
  rfl

/-! ## C3: behaviour on empty holdings and empty price data -/

/-- C3 (counterexample): the claim says an empty price-series mapping or
empty holdings fails with an EmptyInputError-class result surfaced to the
caller.  In the code there is no such class: an empty price-series mapping
dies with a bare `IndexError` from `list(stock_data.values())[0]`, and a
call with empty holdings but non-empty price data does not fail at all —
it completes and returns an all-zero value series. -/
theorem C3_counterexample :
    calculate_portfolio_performance ⟨[("A", 1)], [("A", 100)]⟩ []
        = .error .indexError
    ∧ (calculate_portfolio_performance ⟨[], []⟩ [("A", [(0, 10)])]).isOk = true := by
  constructor
  · rfl
  · decide

/-- C3 (amended): `calculate_portfolio_performance` on an empty price-series
mapping fails with an unclassified `IndexError` (there is no
EmptyInputError-class result); with empty holdings and non-empty price data
it does not fail: it completes, producing an all-zero value series over the
first symbol dates. -/
theorem C3_empty_inputs (p : Portfolio) (s₀ : Sym) (ser : Series) (rest : StockData) :
    calculate_portfolio_performance p [] = .error .indexError
    ∧ (p.holdings = [] → ser ≠ [] →
        ∃ m, calculate_portfolio_performance p ((s₀, ser) :: rest) =
          .ok (ser.map (fun dp => (dp.1, (0 : ℚ))), m)) := by
  constructor
  · rfl
  · intro hh hser
    refine ⟨metricsOfValues
      (ser.map (fun dp => dailyValue p.holdings ((s₀, ser) :: rest) dp.1)), ?_⟩
    rw [calculate_ok p s₀ ser rest hser]
    have hz : ∀ d, dailyValue p.holdings ((s₀, ser) :: rest) d = 0 := by
      intro d; rw [hh]; rfl
    simp only [hz]

/-- C3 (witness for the amended statement), at a concrete nonempty series
and empty holdings. -/
theorem C3_witness :
    ∃ m, calculate_portfolio_performance ⟨[], []⟩ [("A", [(0, 10), (1, 12)])] =
      .ok ([(0, (0 : ℚ)), (1, 0)], m) := by
  obtain ⟨-, h2⟩ := C3_empty_inputs ⟨[], []⟩ "A" [(0, 10), (1, 12)] []
  obtain ⟨m, hm⟩ := h2 rfl (by decide)
  refine ⟨m, ?_⟩
  have hmap : ([(0, (10 : ℚ)), (1, 12)] : Series).map (fun dp => (dp.1, (0 : ℚ)))
      = [(0, 0), (1, 0)] := by decide
  rw [hmap] at hm
  exact hm

/-! ## C8: shape of the portfolio value series -/

/-- C8: for every non-empty price-series mapping, the value series has
exactly the dates of the first encountered symbol series, and the value on
each date is the sum of quantity times closing price over the holdings with
a quote that day (holdings without a quote contributing nothing).  The
first series must be nonempty for the computation to return at all (an
empty one dies in `DataFrame.set_index`). -/
theorem C8_value_series (p : Portfolio) (s₀ : Sym) (ser : Series) (rest : StockData)
    (hser : ser ≠ []) :
    ∃ m, calculate_portfolio_performance p ((s₀, ser) :: rest) =
      .ok (ser.map (fun dp =>
        (dp.1, (p.holdings.map (quoteValue ((s₀, ser) :: rest) dp.1)).sum)), m) := by
  refine ⟨metricsOfValues
    (ser.map (fun dp => dailyValue p.holdings ((s₀, ser) :: rest) dp.1)), ?_⟩
  rw [calculate_ok p s₀ ser rest hser]
  have hv : ∀ d, dailyValue p.holdings ((s₀, ser) :: rest) d
      = (p.holdings.map (quoteValue ((s₀, ser) :: rest) d)).sum := fun d =>
    dailyValue_eq_sum p.holdings ((s₀, ser) :: rest) d
  simp only [hv]

/-- C8 (witness): two holdings, the second lacking a quote on the first
date; the value series runs over the first symbol dates and the missing
quote contributes nothing. -/
theorem C8_witness :
    ∃ m, calculate_portfolio_performance ⟨[("A", 2), ("B", 1)], []⟩
        [("A", [(0, 10), (1, 11)]), ("B", [(1, 5)])]
      = .ok ([(0, (20 : ℚ)), (1, 27)], m) := by
  obtain ⟨m, hm⟩ := C8_value_series ⟨[("A", 2), ("B", 1)], []⟩ "A" [(0, 10), (1, 11)]
    [("B", [(1, 5)])] (by decide)
  refine ⟨m, ?_⟩
  have hmap : ([(0, (10 : ℚ)), (1, 11)] : Series).map (fun dp =>
      (dp.1, ((([("A", (2 : ℚ)), ("B", 1)] : List (Sym × ℚ))).map
        (quoteValue [("A", [(0, 10), (1, 11)]), ("B", [(1, 5)])] dp.1)).sum))
      = [(0, (20 : ℚ)), (1, 27)] := by decide
  rw [hmap] at hm
  exact hm

/-! ## C4: constant value series and the Sharpe ratio -/

theorem zip_self_replicate (v : ℚ) (n : ℕ) :
    (v :: List.replicate n v).zip (List.replicate n v) = List.replicate n (v, v) := by
  induction n with
  | zero => rfl
  | succ k ih => simp only [List.replicate_succ, List.zip_cons_cons] at ih ⊢; rw [ih]

theorem getLastD_replicate {α : Type} (n : ℕ) (c : α) :
    ∀ d, (List.replicate (n + 1) c).getLastD d = c := by
  induction n with
  | zero => intro d; rfl
  | succ k ih =>
      intro d
      rw [List.replicate_succ, List.getLastD_cons]
      exact ih c

theorem filterMap_replicate_some {α β : Type} (f : α → Option β) (n : ℕ) (a : α)
    (b : β) (h : f a = some b) :
    (List.replicate n a).filterMap f = List.replicate n b := by
  induction n with
  | zero => rfl
  | succ k ih => simp [List.replicate_succ, List.filterMap_cons, h, ih]

theorem filter_replicate_pos {α : Type} (p : α → Bool) (n : ℕ) (a : α)
    (h : p a = true) : (List.replicate n a).filter p = List.replicate n a := by
  induction n with
  | zero => rfl
  | succ k ih => simp [List.replicate_succ, List.filter_cons, h, ih]

theorem filter_replicate_neg {α : Type} (p : α → Bool) (n : ℕ) (a : α)
    (h : p a = false) : (List.replicate n a).filter p = [] := by
  induction n with
  | zero => rfl
  | succ k ih => simp [List.replicate_succ, List.filter_cons, h, ih]

theorem zipWith_mul_replicate_zero (n : ℕ) :
    List.zipWith (· * ·) (List.replicate n (0 : ℚ)) (List.replicate n 0)
      = List.replicate n 0 := by
  induction n with
  | zero => rfl
  | succ k ih => simp only [List.replicate_succ, List.zipWith_cons_cons, ih, mul_zero]

/-- Sample standard deviation of a constant-zero return column. -/
theorem stdQ_replicate_zero (n : ℕ) :
    stdQ (List.replicate n (0 : ℚ)) = if n ≤ 1 then PFloat.nan else .fin 1 0 := by
  unfold stdQ varSum covSum centered dot mean
  simp only [List.length_replicate, List.sum_replicate, smul_zero, zero_div,
    List.map_replicate, zero_sub, neg_zero, zipWith_mul_replicate_zero,
    List.sum_replicate]

/-- On a constant (nonempty) portfolio value series, `sharpe_ratio` comes
out as the IEEE `nan` sentinel: the division `annualized_return /
volatility` has a zero (or `nan`) denominator and numerator. -/
theorem sharpe_of_constant (n : ℕ) (v : ℚ) :
    (metricsOfValues (List.replicate (n + 1) v)).sharpe_ratio = .nan := by
  have hhead : (List.replicate (n + 1) v).headD 0 = v := by
    rw [List.replicate_succ]; rfl
  have hexp : (365 : ℚ) / ((List.replicate (n + 1) v).length : ℚ) ≠ 0 := by
    rw [List.length_replicate]
    positivity
  set r := PFloat.subQ (PFloat.divQ v v) 1 with hr
  have hpc : pctChangeF (List.replicate (n + 1) v) = .nan :: List.replicate n r := by
    rw [List.replicate_succ]
    rw [show pctChangeF (v :: List.replicate n v)
        = .nan :: ((v :: List.replicate n v).zip (List.replicate n v)).map
            (fun pr => PFloat.subQ (PFloat.divQ pr.2 pr.1) 1) from rfl]
    rw [zip_self_replicate, List.map_replicate]
  have hcum : (List.replicate (n + 1) v).map
        (fun x => PFloat.subQ (PFloat.divQ x ((List.replicate (n + 1) v).headD 0)) 1)
      = List.replicate (n + 1) r := by
    rw [hhead, List.map_replicate]
  unfold metricsOfValues
  simp only [hpc, hcum, getLastD_replicate]
  rcases eq_or_ne v 0 with hv | hv
  · -- constant zero series: every derived quantity is nan
    have hrn : r = PFloat.nan := by rw [hr, hv]; decide
    have hstd : stdF (PFloat.nan :: List.replicate n PFloat.nan) = .nan := by
      have hfil : (PFloat.nan :: List.replicate n PFloat.nan).filter (· ≠ PFloat.nan)
          = [] := by
        have h2 := filter_replicate_neg (· ≠ PFloat.nan) n PFloat.nan (by decide)
        simpa [List.filter_cons] using h2
      simp only [stdF, hfil]
      rfl
    have hpow : PFloat.powQ (PFloat.addQ PFloat.nan 1)
        (365 / ((List.replicate (n + 1) v).length : ℚ)) = .nan := by
      rw [show PFloat.addQ PFloat.nan 1 = PFloat.nan from rfl]
      unfold PFloat.powQ
      rw [if_neg hexp]
    simp only [hrn, hstd, hpow]
    decide
  · -- constant nonzero series: the daily returns are exactly zero
    have hrf : r = PFloat.fin 0 1 := by
      have h1 : PFloat.divQ v v = .fin 1 1 := by
        unfold PFloat.divQ
        rw [if_neg hv, div_self hv]
      rw [hr, h1]; decide
    have hstd : stdF (PFloat.nan :: List.replicate n (PFloat.fin 0 1))
        = (if n ≤ 1 then PFloat.nan else .fin 1 0) := by
      have hfil : (PFloat.nan :: List.replicate n (PFloat.fin 0 1)).filter
            (· ≠ PFloat.nan) = List.replicate n (.fin 0 1) := by
        have h2 := filter_replicate_pos (· ≠ PFloat.nan) n (PFloat.fin 0 1) (by decide)
        simpa [List.filter_cons] using h2
      simp only [stdF, hfil]
      have hall : (List.replicate n (PFloat.fin 0 1)).all
          (fun x => (PFloat.ratValue x).isSome) = true := by
        simp only [List.all_eq_true, List.mem_replicate]
        rintro x ⟨-, rfl⟩
        rfl
      rw [hall, if_pos rfl,
        filterMap_replicate_some PFloat.ratValue n (PFloat.fin 0 1) (0 : ℚ) (by decide),
        stdQ_replicate_zero]
    have hpow : PFloat.subQ (PFloat.powQ (PFloat.addQ (PFloat.fin 0 1) 1)
        (365 / ((List.replicate (n + 1) v).length : ℚ))) 1 = .fin 0 1 := by
      rw [show PFloat.addQ (PFloat.fin 0 1) 1 = .fin 1 1 by decide]
      unfold PFloat.powQ
      rw [if_neg hexp]
      rfl
    simp only [hrf, hstd, hpow]
    rcases le_or_lt n 1 with hn | hn
    · rw [if_pos hn]; decide
    · rw [if_neg (by omega)]; decide

/-- C4: on every input whose portfolio value series is constant, the
performance computation completes (the metrics block is a total function of
the value series) and `sharpe_ratio` is produced as the defined IEEE `nan`
sentinel of the zero-volatility division rather than a crash. -/
theorem C4_constant_sharpe (p : Portfolio) (sd : StockData)
    (series : List (Date × ℚ)) (m : PerfMetrics) (v : ℚ)
    (hok : calculate_portfolio_performance p sd = .ok (series, m))
    (hconst : ∀ dp ∈ series, dp.2 = v) :
    m.sharpe_ratio = .nan := by
  match sd with
  | [] => exact absurd hok (by simp [calculate_portfolio_performance])
  | (s₀, ser) :: rest =>
      cases ser with
      | nil => simp [calculate_portfolio_performance] at hok
      | cons d₀ ser' =>
          rw [calculate_ok p s₀ (d₀ :: ser') rest (by simp)] at hok
          simp only [Except.ok.injEq, Prod.mk.injEq] at hok
          obtain ⟨hser, hm⟩ := hok
          have hvals : ∀ x ∈ series.map (fun dp => dp.2), x = v := by
            intro x hx
            obtain ⟨dp, hdp, rfl⟩ := List.mem_map.1 hx
            exact hconst dp hdp
          have hlen1 : series ≠ [] := by
            intro h
            rw [h] at hser
            exact List.cons_ne_nil _ _ (List.map_eq_nil_iff.1 hser)
          have hrep : ∃ k, series.map (fun dp => dp.2)
              = List.replicate (k + 1) v := by
            refine ⟨(series.map (fun dp => dp.2)).length - 1, ?_⟩
            have hlpos : 0 < (series.map (fun dp => dp.2)).length := by
              simpa [List.length_map, List.length_pos] using hlen1
            refine List.eq_replicate_iff.2 ⟨by omega, hvals⟩
          obtain ⟨k, hk⟩ := hrep
          have hmv : m = metricsOfValues (series.map (fun dp => dp.2)) := by
            rw [← hm]
            congr 1
            rw [← hser, List.map_map]
            rfl
          rw [hmv, hk]
          exact sharpe_of_constant k v

/-- C4 (witness): a two-holding portfolio whose prices make the value
series constant at 7. -/
theorem C4_witness :
    ∃ m, calculate_portfolio_performance ⟨[("A", 2), ("B", 1)], []⟩
        [("A", [(0, 2), (1, 3)]), ("B", [(0, 3), (1, 1)])] = .ok ([(0, (7 : ℚ)), (1, 7)], m)
      ∧ m.sharpe_ratio = .nan := by
  have hok : calculate_portfolio_performance ⟨[("A", 2), ("B", 1)], []⟩
      [("A", [(0, 2), (1, 3)]), ("B", [(0, 3), (1, 1)])]
      = .ok ([(0, (7 : ℚ)), (1, 7)],
        metricsOfValues [7, 7]) := by rfl
  refine ⟨metricsOfValues [7, 7], hok, ?_⟩
  exact C4_constant_sharpe ⟨[("A", 2), ("B", 1)], []⟩
    [("A", [(0, 2), (1, 3)]), ("B", [(0, 3), (1, 1)])]
    [(0, (7 : ℚ)), (1, 7)] (metricsOfValues [7, 7]) 7 hok (by decide)

/-! ## Lemmas about `analyze_stock_contributions` -/

theorem except_bind_ok {ε α β : Type} (a : α) (f : α → Except ε β) :
    (Except.ok a >>= f : Except ε β) = f a := rfl

theorem except_bind_error {ε α β : Type} (e : ε) (f : α → Except ε β) :
    ((Except.error e : Except ε α) >>= f : Except ε β) = .error e := rfl

/-- Contents of a successfully built contribution entry. -/
theorem mkContribution_ok {p : Portfolio} {nifty : Option Series} {fm : Sym → FinBlob}
    {T : ℚ} {symbol : Sym} {qty : ℚ} {series : Series} {c : Contribution}
    (h : mkContribution p nifty fm T symbol qty series = .ok c) :
    ∃ last avg, series.getLast? = some last ∧ p.avg_costs.lookup symbol = some avg ∧
      c = { quantity := qty
            current_price := round2 last.2
            current_value := round2 (last.2 * qty)
            weight := last.2 * qty / T
            ret := round2 (last.2 / avg - 1)
            contribution_to_return := round2 ((last.2 / avg - 1) * (last.2 * qty / T))
            correlation_to_market := (corrBeta series nifty).1
            beta := (corrBeta series nifty).2
            financial_metrics := fm symbol } := by
  unfold mkContribution at h
  split at h
  · exact absurd h (by simp)
  · rename_i last hl
    split at h
    · exact absurd h (by simp)
    · rename_i avg ha
      simp only [Except.ok.injEq] at h
      exact ⟨last, avg, hl, ha, h.symm⟩

/-- Every entry of the contributions dict comes from a holding present in
the price data, built by `mkContribution` with the shared total
investment. -/
theorem contributionsGo_ok_mem {p : Portfolio} {sd : StockData} {nifty : Option Series}
    {fm : Sym → FinBlob} {T : ℚ} :
    ∀ {hs : List (Sym × ℚ)} {out : List (Sym × Contribution)} {sym : Sym}
      {c : Contribution},
      contributionsGo p sd nifty fm T hs = .ok out → (sym, c) ∈ out →
      ∃ qty series, (sym, qty) ∈ hs ∧ sd.lookup sym = some series ∧
        mkContribution p nifty fm T sym qty series = .ok c := by
  intro hs
  induction hs with
  | nil =>
      intro out sym c hok hmem
      simp only [contributionsGo, Except.ok.injEq] at hok
      subst hok
      simp at hmem
  | cons hd rest ih =>
      intro out sym c hok hmem
      obtain ⟨symbol, quantity⟩ := hd
      unfold contributionsGo at hok
      split at hok
      case h_1 hsd =>
          obtain ⟨qty, series, hmem', hser, hmk⟩ := ih hok hmem
          exact ⟨qty, series, List.mem_cons_of_mem _ hmem', hser, hmk⟩
      case h_2 series hsd =>
          cases hmk : mkContribution p nifty fm T symbol quantity series with
          | error e => rw [hmk, except_bind_error] at hok; exact absurd hok (by simp)
          | ok c₀ =>
              rw [hmk, except_bind_ok] at hok
              cases hgo : contributionsGo p sd nifty fm T rest with
              | error e => rw [hgo, except_bind_error] at hok; exact absurd hok (by simp)
              | ok out' =>
                  rw [hgo, except_bind_ok] at hok
                  simp only [Except.ok.injEq] at hok
                  subst hok
                  rcases List.mem_cons.1 hmem with hhd | htl
                  · rw [Prod.mk.injEq] at hhd
                    obtain ⟨rfl, rfl⟩ := hhd
                    exact ⟨quantity, series, List.mem_cons_self .., hsd, hmk⟩
                  · obtain ⟨qty, series', hmem', hser, hmk'⟩ := ih hgo htl
                    exact ⟨qty, series', List.mem_cons_of_mem _ hmem', hser, hmk'⟩

/-- The weights of a successful contributions run sum to the total latest
value of the priced holdings divided by the shared total investment. -/
theorem contributionsGo_weight_sum {p : Portfolio} {sd : StockData}
    {nifty : Option Series} {fm : Sym → FinBlob} {T : ℚ} :
    ∀ {hs : List (Sym × ℚ)} {out : List (Sym × Contribution)},
      contributionsGo p sd nifty fm T hs = .ok out →
      (out.map (fun sc => sc.2.weight)).sum
        = (hs.map (fun sq =>
            match sd.lookup sq.1 with
            | some ser =>
                match ser.getLast? with
                | some last => last.2 * sq.2
                | none => 0
            | none => 0)).sum / T := by
  intro hs
  induction hs with
  | nil =>
      intro out hok
      simp only [contributionsGo, Except.ok.injEq] at hok
      subst hok
      simp
  | cons hd rest ih =>
      intro out hok
      obtain ⟨symbol, quantity⟩ := hd
      unfold contributionsGo at hok
      split at hok
      case h_1 hsd =>
          rw [ih hok]
          simp only [List.map_cons, List.sum_cons, hsd]
          rw [zero_add]
      case h_2 series hsd =>
          cases hmk : mkContribution p nifty fm T symbol quantity series with
          | error e => rw [hmk, except_bind_error] at hok; exact absurd hok (by simp)
          | ok c₀ =>
              rw [hmk, except_bind_ok] at hok
              cases hgo : contributionsGo p sd nifty fm T rest with
              | error e => rw [hgo, except_bind_error] at hok; exact absurd hok (by simp)
              | ok out' =>
                  rw [hgo, except_bind_ok] at hok
                  simp only [Except.ok.injEq] at hok
                  subst hok
                  obtain ⟨last, avg, hl, ha, hc⟩ := mkContribution_ok hmk
                  simp only [List.map_cons, List.sum_cons, hsd, hl, ih hgo, hc]
                  rw [add_div]

/-- A successful first loop computes the cost basis of the priced
holdings on top of its accumulator. -/
theorem totalInvestmentGo_sum {avg_costs : List (Sym × ℚ)} {sd : StockData} :
    ∀ {hs : List (Sym × ℚ)} {acc T : ℚ},
      totalInvestmentGo avg_costs sd acc hs = .ok T →
      T = acc + (hs.map (fun sq =>
          match sd.lookup sq.1, avg_costs.lookup sq.1 with
          | some _, some avg => avg * sq.2
          | _, _ => 0)).sum := by
  intro hs
  induction hs with
  | nil =>
      intro acc T hok
      simp only [totalInvestmentGo, Except.ok.injEq] at hok
      subst hok
      simp
  | cons hd rest ih =>
      intro acc T hok
      obtain ⟨symbol, quantity⟩ := hd
      unfold totalInvestmentGo at hok
      cases hsd : sd.lookup symbol with
      | none =>
          rw [hsd] at hok
          simp only [Option.isSome_none, Bool.false_eq_true, if_false] at hok
          rw [ih hok]
          simp only [List.map_cons, List.sum_cons, hsd]
          ring
      | some series =>
          rw [hsd] at hok
          simp only [Option.isSome_some, if_true] at hok
          cases ha : avg_costs.lookup symbol with
          | none => rw [ha] at hok; exact absurd hok (by simp)
          | some avg =>
              rw [ha] at hok
              rw [ih hok]
              simp only [List.map_cons, List.sum_cons, hsd, ha]
              ring

/-- A successful analysis run is a successful first loop feeding a
successful second loop. -/
theorem analyze_ok_parts {p : Portfolio} {sd : StockData} {nifty : Option Series}
    {fm : Sym → FinBlob} {out : List (Sym × Contribution)}
    (h : analyze_stock_contributions p sd nifty fm = .ok out) :
    ∃ T, totalInvestmentGo p.avg_costs sd 0 p.holdings = .ok T ∧
      contributionsGo p sd nifty fm T p.holdings = .ok out := by
  unfold analyze_stock_contributions at h
  cases ht : totalInvestmentGo p.avg_costs sd 0 p.holdings with
  | error e => rw [ht, except_bind_error] at h; exact absurd h (by simp)
  | ok T => rw [ht, except_bind_ok] at h; exact ⟨T, rfl, h⟩

/-! ## C1: what the weights sum to -/

/-- C1 (counterexample): a single holding bought at 100 and now trading at
110 has positive total cost basis, yet its (only) weight is 1.1, not 1.0
within 1e-6: the weights are current values over the cost basis, and those
two totals differ as soon as prices moved. -/
theorem C1_counterexample :
    (analyze_stock_contributions ⟨[("A", 1)], [("A", 100)]⟩ [("A", [(0, 110)])] none
        (fun _ => [])).map (fun out => (out.map (fun sc => sc.2.weight)).sum)
      = .ok (11 / 10)
    ∧ (0 : ℚ) < costBasisSum ⟨[("A", 1)], [("A", 100)]⟩ [("A", [(0, 110)])]
    ∧ (1 / 1000000 : ℚ) < |(11 / 10 : ℚ) - 1| := by
  refine ⟨rfl, by decide, ?_⟩
  rw [show |(11 / 10 : ℚ) - 1| = 1 / 10 by norm_num [abs_of_pos]]
  norm_num

/-- C1 (amended): when the total cost basis of the priced holdings is
positive, the weights in the contribution mapping sum to the total current
value divided by the total cost basis — which equals 1.0 only when the
portfolio current value coincides with its cost basis, not in general. -/
theorem C1_weight_sum (p : Portfolio) (sd : StockData) (nifty : Option Series)
    (fm : Sym → FinBlob) (out : List (Sym × Contribution))
    (hok : analyze_stock_contributions p sd nifty fm = .ok out)
    (hpos : 0 < costBasisSum p sd) :
    (out.map (fun sc => sc.2.weight)).sum
      = currentValueSum p sd / costBasisSum p sd := by
  obtain ⟨T, ht, hgo⟩ := analyze_ok_parts hok
  have hT : T = costBasisSum p sd := by
    have h2 := totalInvestmentGo_sum ht
    rw [h2, zero_add]
    rfl
  rw [contributionsGo_weight_sum hgo, hT]
  rfl

/-- C1 (witness for the amended statement): the counterexample portfolio,
where the sum of weights is 110/100. -/
theorem C1_witness :
    ([("A", (⟨1, 110, 110, 11 / 10, 1 / 10, 11 / 100, none, none, []⟩ : Contribution))].map
        (fun sc => sc.2.weight)).sum
      = currentValueSum ⟨[("A", 1)], [("A", 100)]⟩ [("A", [(0, 110)])]
        / costBasisSum ⟨[("A", 1)], [("A", 100)]⟩ [("A", [(0, 110)])] :=
  C1_weight_sum ⟨[("A", 1)], [("A", 100)]⟩ [("A", [(0, 110)])] none (fun _ => [])
    [("A", ⟨1, 110, 110, 11 / 10, 1 / 10, 11 / 100, none, none, []⟩)]
    (by rfl) (by decide)

/-! ## C2: nullability and range of correlation and beta -/

theorem dot_eq_range_sum (xs ys : List ℚ) (h : xs.length = ys.length) :
    dot xs ys = ∑ i ∈ Finset.range xs.length, xs.getD i 0 * ys.getD i 0 := by
  induction xs generalizing ys with
  | nil => simp [dot]
  | cons x xs' ih =>
      cases ys with
      | nil => simp at h
      | cons y ys' =>
          have hlen : xs'.length = ys'.length := by simpa using h
          have hstep : dot (x :: xs') (y :: ys') = x * y + dot xs' ys' := by
            simp [dot, List.zipWith_cons_cons]
          rw [hstep, ih ys' hlen, List.length_cons, Finset.sum_range_succ']
          simp [List.getD_cons_succ, List.getD_cons_zero, add_comm]

theorem dot_self_nonneg (xs : List ℚ) : 0 ≤ dot xs xs := by
  induction xs with
  | nil => simp [dot]
  | cons x xs' ih =>
      have hstep : dot (x :: xs') (x :: xs') = x * x + dot xs' xs' := by
        simp [dot, List.zipWith_cons_cons]
      rw [hstep]
      nlinarith [mul_self_nonneg x]

/-- Cauchy-Schwarz for the list dot product (equal lengths). -/
theorem dot_sq_le (xs ys : List ℚ) (h : xs.length = ys.length) :
    dot xs ys ^ 2 ≤ dot xs xs * dot ys ys := by
  rw [dot_eq_range_sum xs ys h, dot_eq_range_sum xs xs rfl, dot_eq_range_sum ys ys rfl,
    ← h]
  calc (∑ i ∈ Finset.range xs.length, xs.getD i 0 * ys.getD i 0) ^ 2
      ≤ (∑ i ∈ Finset.range xs.length, xs.getD i 0 ^ 2)
        * ∑ i ∈ Finset.range xs.length, ys.getD i 0 ^ 2 :=
        Finset.sum_mul_sq_le_sq_mul_sq _ _ _
    _ = (∑ i ∈ Finset.range xs.length, xs.getD i 0 * xs.getD i 0)
        * ∑ i ∈ Finset.range xs.length, ys.getD i 0 * ys.getD i 0 := by
        simp_rw [sq]

theorem varSum_nonneg (xs : List ℚ) : 0 ≤ varSum xs := dot_self_nonneg _

/-- Reduction of the correlation/beta block with benchmark data present. -/
theorem corrBeta_some (series ns : Series) :
    corrBeta series (some ns)
      = (if !(alignReturns (dailyReturns series) (dailyReturns ns)).isEmpty
            && 30 < (alignReturns (dailyReturns series) (dailyReturns ns)).length then
          (some (pearson ((alignReturns (dailyReturns series) (dailyReturns ns)).map (·.1))
                  ((alignReturns (dailyReturns series) (dailyReturns ns)).map (·.2))),
           some (PFloat.mul
              (pearson ((alignReturns (dailyReturns series) (dailyReturns ns)).map (·.1))
                ((alignReturns (dailyReturns series) (dailyReturns ns)).map (·.2)))
              (PFloat.div (stdQ ((dailyReturns series).map (·.2)))
                (stdQ ((dailyReturns ns).map (·.2))))))
        else (none, none)) := rfl

/-- The Pearson correlation of two same-length rational lists with nonzero
variances is a finite representation `a√b` with `0 ≤ b` and `a²b ≤ 1`
(that is, a value in `[-1, 1]`). -/
theorem pearson_bound (xs ys : List ℚ) (hlen : xs.length = ys.length)
    (hv : varSum xs * varSum ys ≠ 0) :
    ∃ a b, pearson xs ys = .fin a b ∧ 0 ≤ b ∧ a ^ 2 * b ≤ 1 := by
  refine ⟨covSum xs ys / (varSum xs * varSum ys), varSum xs * varSum ys, ?_, ?_, ?_⟩
  · unfold pearson
    rw [if_neg hv]
  · exact mul_nonneg (varSum_nonneg xs) (varSum_nonneg ys)
  · have hpos : 0 < varSum xs * varSum ys :=
      lt_of_le_of_ne (mul_nonneg (varSum_nonneg xs) (varSum_nonneg ys)) (Ne.symm hv)
    have hcs : covSum xs ys ^ 2 ≤ varSum xs * varSum ys := by
      have hclen : (centered xs).length = (centered ys).length := by
        simpa [centered] using hlen
      exact dot_sq_le (centered xs) (centered ys) hclen
    have heq : (covSum xs ys / (varSum xs * varSum ys)) ^ 2 * (varSum xs * varSum ys)
        = covSum xs ys ^ 2 / (varSum xs * varSum ys) := by
      field_simp
      ring
    rw [heq, div_le_one hpos]
    exact hcs

/-- C2 (counterexample): with exactly 30 date-aligned daily-return
observations the claim requires non-null correlation and beta, but the code
tests `len(aligned_data) > 30` (strict), so 30 aligned observations still
give null for both. -/
theorem C2_counterexample :
    (alignReturns (dailyReturns ((List.range 31).map (fun i => (i, (1 : ℚ)))))
        (dailyReturns ((List.range 31).map (fun i => (i, (2 : ℚ)))))).length = 30
    ∧ (analyze_stock_contributions ⟨[("A", 1)], [("A", 100)]⟩
          [("A", (List.range 31).map (fun i => (i, (1 : ℚ))))]
          (some ((List.range 31).map (fun i => (i, (2 : ℚ))))) (fun _ => [])).map
        (fun out => out.map (fun sc => (sc.1, sc.2.correlation_to_market, sc.2.beta)))
      = .ok [("A", none, none)] := by
  exact ⟨by decide, by rfl⟩

/-- C2 (amended): with benchmark data present, a contribution entry has
null correlation and beta exactly when the number of date-aligned
daily-return observations is at most 30 (not: fewer than 30 — exactly 30 is
still null); with more than 30 aligned observations and nonzero aligned
variances, both are non-null and the correlation `a√b` satisfies
`a²b ≤ 1`, i.e. it lies in `[-1, 1]`. -/
theorem C2_correlation_threshold (p : Portfolio) (sd : StockData) (ns : Series)
    (fm : Sym → FinBlob) (out : List (Sym × Contribution)) (sym : Sym)
    (c : Contribution) (series : Series)
    (hok : analyze_stock_contributions p sd (some ns) fm = .ok out)
    (hmem : (sym, c) ∈ out) (hser : sd.lookup sym = some series) :
    ((c.correlation_to_market = none ∧ c.beta = none)
      ↔ (alignReturns (dailyReturns series) (dailyReturns ns)).length ≤ 30)
    ∧ (30 < (alignReturns (dailyReturns series) (dailyReturns ns)).length →
        varSum ((alignReturns (dailyReturns series) (dailyReturns ns)).map (·.1))
          * varSum ((alignReturns (dailyReturns series) (dailyReturns ns)).map (·.2)) ≠ 0 →
        ∃ a b, c.correlation_to_market = some (.fin a b) ∧ 0 ≤ b ∧ a ^ 2 * b ≤ 1
          ∧ c.beta.isSome = true) := by
  obtain ⟨T, ht, hgo⟩ := analyze_ok_parts hok
  obtain ⟨qty, series', hmem', hser', hmk⟩ := contributionsGo_ok_mem hgo hmem
  rw [hser] at hser'
  have hse : series = series' := by injection hser'
  subst hse
  obtain ⟨last, avg, hl, ha, hc⟩ := mkContribution_ok hmk
  have hcorr : c.correlation_to_market = (corrBeta series (some ns)).1 := by rw [hc]
  have hbeta : c.beta = (corrBeta series (some ns)).2 := by rw [hc]
  rw [corrBeta_some] at hcorr hbeta
  rcases le_or_lt (alignReturns (dailyReturns series) (dailyReturns ns)).length 30
    with hle | hgt
  · have hcond : ¬ ((!(alignReturns (dailyReturns series) (dailyReturns ns)).isEmpty
        && decide (30 < (alignReturns (dailyReturns series) (dailyReturns ns)).length))
          = true) := by
      simp only [Bool.and_eq_true, decide_eq_true_eq, not_and]
      intro _
      omega
    rw [if_neg hcond] at hcorr hbeta
    rw [hcorr, hbeta]
    exact ⟨by simp [hle], fun h => absurd h (by omega)⟩
  · have hne : (alignReturns (dailyReturns series) (dailyReturns ns)).isEmpty = false := by
      rw [List.isEmpty_eq_false_iff_exists_mem]
      cases halign : alignReturns (dailyReturns series) (dailyReturns ns) with
      | nil => rw [halign] at hgt; simp at hgt
      | cons a l => exact ⟨a, List.mem_cons_self ..⟩
    have hcond : (!(alignReturns (dailyReturns series) (dailyReturns ns)).isEmpty
        && decide (30 < (alignReturns (dailyReturns series) (dailyReturns ns)).length))
          = true := by
      simp only [Bool.and_eq_true, decide_eq_true_eq, hne, Bool.not_false]
      refine ⟨?_, hgt⟩
      first
      | trivial
      | rfl
    rw [if_pos hcond] at hcorr hbeta
    rw [hcorr, hbeta]
    constructor
    · constructor
      · rintro ⟨h1, -⟩
        simp at h1
      · intro h
        omega
    · intro _ hv
      obtain ⟨a, b, hpe, hb, hab⟩ := pearson_bound _ _ (by simp [List.length_map]) hv
      refine ⟨a, b, ?_, hb, hab, ?_⟩
      · show some (pearson _ _) = some (PFloat.fin a b)
        rw [hpe]
      · rfl

set_option maxRecDepth 100000 in
/-- C2 (witness for the amended statement): 32 alternating prices give 31
date-aligned return observations of nonzero variance; correlation and beta
come out non-null, with the correlation representation inside `[-1, 1]`. -/
theorem C2_witness :
    ∃ out c, analyze_stock_contributions ⟨[("A", 1)], [("A", 1)]⟩ [("A", altSeries)]
        (some altSeries) (fun _ => []) = .ok out
      ∧ ("A", c) ∈ out
      ∧ 30 < (alignReturns (dailyReturns altSeries) (dailyReturns altSeries)).length
      ∧ ∃ a b, c.correlation_to_market = some (.fin a b) ∧ 0 ≤ b ∧ a ^ 2 * b ≤ 1
          ∧ c.beta.isSome = true := by
  refine ⟨(analyze_stock_contributions ⟨[("A", 1)], [("A", 1)]⟩ [("A", altSeries)]
      (some altSeries) (fun _ => [])).toOption.getD [],
    (((analyze_stock_contributions ⟨[("A", 1)], [("A", 1)]⟩ [("A", altSeries)]
      (some altSeries) (fun _ => [])).toOption.getD []).headD
        ("A", blankContribution)).2, rfl, by decide, by decide, ?_⟩
  exact (C2_correlation_threshold ⟨[("A", 1)], [("A", 1)]⟩ [("A", altSeries)] altSeries
    (fun _ => []) _ "A" _ altSeries rfl (by decide) rfl).2 (by decide) (by decide)

/-! ## Lemmas about `generate_optimization_suggestions` -/

theorem finSign_one (a : ℚ) :
    PFloat.finSign a 1 = if a = 0 then 0 else if 0 < a then 1 else -1 := by
  unfold PFloat.finSign
  norm_num

/-- The float comparison agrees with the rational one on rational values. -/
theorem lt_ofQ (a c : ℚ) : PFloat.lt (.fin a 1) (.fin c 1) = decide (a < c) := by
  have hred : PFloat.lt (.fin a 1) (.fin c 1)
      = (if PFloat.finSign a 1 < PFloat.finSign c 1 then true
         else if PFloat.finSign c 1 < PFloat.finSign a 1 then false
         else if PFloat.finSign a 1 = 0 then false
         else if PFloat.finSign a 1 = 1 then decide (a ^ 2 * 1 < c ^ 2 * 1)
         else decide (c ^ 2 * 1 < a ^ 2 * 1)) := rfl
  rw [hred, finSign_one, finSign_one]
  rcases lt_trichotomy a 0 with ha | rfl | ha <;>
    rcases lt_trichotomy c 0 with hc | rfl | hc
  · rw [if_neg ha.ne, if_neg (not_lt.2 ha.le), if_neg hc.ne, if_neg (not_lt.2 hc.le),
      if_neg (by norm_num), if_neg (by norm_num), if_neg (by norm_num),
      if_neg (by norm_num)]
    rw [decide_eq_decide]
    constructor
    · intro h; nlinarith
    · intro h; nlinarith
  · rw [if_neg ha.ne, if_neg (not_lt.2 ha.le), if_pos rfl, if_pos (by norm_num)]
    simp [ha]
  · rw [if_neg ha.ne, if_neg (not_lt.2 ha.le), if_neg hc.ne', if_pos hc,
      if_pos (by norm_num)]
    simp [ha.trans hc]
  · rw [if_pos rfl, if_neg hc.ne, if_neg (not_lt.2 hc.le), if_neg (by norm_num),
      if_pos (by norm_num)]
    simp [not_lt.2 hc.le]
  · rw [if_pos rfl]
    rw [if_neg (by norm_num)]
    rw [if_pos rfl]
    simp
  · rw [if_pos rfl, if_neg hc.ne', if_pos hc, if_pos (by norm_num)]
    simp [hc]
  · rw [if_neg ha.ne', if_pos ha, if_neg hc.ne, if_neg (not_lt.2 hc.le),
      if_neg (by norm_num), if_pos (by norm_num)]
    simp [not_lt.2 (hc.trans ha).le]
  · rw [if_neg ha.ne', if_pos ha, if_pos rfl, if_neg (by norm_num),
      if_pos (by norm_num)]
    simp [not_lt.2 ha.le]
  · rw [if_neg ha.ne', if_pos ha, if_neg hc.ne', if_pos hc, if_neg (by norm_num),
      if_neg (by norm_num), if_neg (by norm_num), if_pos rfl]
    rw [decide_eq_decide]
    constructor
    · intro h; nlinarith
    · intro h; nlinarith

/-- Reduction of the suggestion generation with a nonempty benchmark. -/
theorem generate_eq (metrics : PerfMetrics) (contributions : List (Sym × Contribution))
    (ns : Series) (first last : Date × ℚ)
    (hhead : ns.head? = some first) (hlast : ns.getLast? = some last) :
    generate_optimization_suggestions metrics contributions (some ns)
      = .ok (divSuggestions contributions
          ++ perfSuggestions (last.2 / first.2 - 1) contributions
          ++ corrSuggestion contributions
          ++ portSuggestion metrics) := by
  simp only [generate_optimization_suggestions, hlast, hhead]

theorem divSuggestions_type (contributions : List (Sym × Contribution))
    (s : Suggestion) (hs : s ∈ divSuggestions contributions) :
    s.type = .Diversification := by
  simp only [divSuggestions, List.mem_filterMap] at hs
  obtain ⟨sc, -, hf⟩ := hs
  split at hf
  · obtain rfl := Option.some.inj hf
    rfl
  · exact Option.noConfusion hf

theorem perfSuggestions_type (market_return : ℚ)
    (contributions : List (Sym × Contribution)) (s : Suggestion)
    (hs : s ∈ perfSuggestions market_return contributions) :
    s.type = .Performance := by
  simp only [perfSuggestions, List.mem_filterMap] at hs
  obtain ⟨sc, -, hf⟩ := hs
  split at hf
  · obtain rfl := Option.some.inj hf
    rfl
  · exact Option.noConfusion hf

theorem corrSuggestion_type (contributions : List (Sym × Contribution))
    (s : Suggestion) (hs : s ∈ corrSuggestion contributions) :
    s.type = .Correlation := by
  unfold corrSuggestion at hs
  split at hs
  · rcases List.mem_singleton.1 hs with rfl
    rfl
  · exact absurd hs (List.not_mem_nil s)

/-- Membership in the rule-2 block, characterised. -/
theorem perfSuggestions_mem (market_return : ℚ)
    (contributions : List (Sym × Contribution)) (s : Suggestion) :
    s ∈ perfSuggestions market_return contributions ↔
      ∃ sc ∈ contributions, (sc.2.ret < 0 ∧ sc.2.ret < market_return - 1 / 20) ∧
        s = { type := .Performance, symbol := sc.1,
              action := "Consider replacing or reducing",
              severity := if sc.2.ret < -(1 / 10 : ℚ) then Severity.high
                          else Severity.medium } := by
  simp only [perfSuggestions, List.mem_filterMap]
  constructor
  · rintro ⟨sc, hmem, hf⟩
    split at hf
    · exact ⟨sc, hmem, by assumption, (Option.some.inj hf).symm⟩
    · exact Option.noConfusion hf
  · rintro ⟨sc, hmem, hcond, rfl⟩
    exact ⟨sc, hmem, by rw [if_pos hcond]⟩

/-! ## C5: the Sharpe-ratio rule boundary -/

/-- C5: with a finite rational Sharpe ratio and a completed run, the
Portfolio/OVERALL/medium suggestion is emitted exactly when the Sharpe
ratio is strictly below 0.5 (no other rule emits a Portfolio-type
suggestion). -/
theorem C5_sharpe_rule (metrics : PerfMetrics)
    (contributions : List (Sym × Contribution)) (ns : Series)
    (first last : Date × ℚ) (q : ℚ) (sug : List Suggestion)
    (hhead : ns.head? = some first) (hlast : ns.getLast? = some last)
    (hq : metrics.sharpe_ratio = .fin q 1)
    (hok : generate_optimization_suggestions metrics contributions (some ns) = .ok sug) :
    ((∃ s ∈ sug, s.type = SugType.Portfolio) ↔ q < 1 / 2)
    ∧ (q < 1 / 2 →
        ({ type := SugType.Portfolio, symbol := "OVERALL",
           action := "Consider risk/return optimization",
           severity := Severity.medium } : Suggestion) ∈ sug) := by
  rw [generate_eq metrics contributions ns first last hhead hlast] at hok
  obtain rfl : divSuggestions contributions
      ++ perfSuggestions (last.2 / first.2 - 1) contributions
      ++ corrSuggestion contributions ++ portSuggestion metrics = sug :=
    Except.ok.inj hok
  have hport : portSuggestion metrics
      = if q < 1 / 2 then
          [{ type := SugType.Portfolio, symbol := "OVERALL",
             action := "Consider risk/return optimization",
             severity := Severity.medium }]
        else [] := by
    unfold portSuggestion
    rw [hq, lt_ofQ]
    by_cases h : q < 1 / 2
    · rw [if_pos (decide_eq_true h), if_pos h]
    · rw [if_neg (by simpa using h), if_neg h]
  constructor
  · constructor
    · rintro ⟨s, hs, hty⟩
      rcases List.mem_append.1 hs with hs | hs
      · rcases List.mem_append.1 hs with hs | hs
        · rcases List.mem_append.1 hs with hs | hs
          · exact SugType.noConfusion ((divSuggestions_type _ s hs).symm.trans hty)
          · exact SugType.noConfusion ((perfSuggestions_type _ _ s hs).symm.trans hty)
        · exact SugType.noConfusion ((corrSuggestion_type _ s hs).symm.trans hty)
      · rw [hport] at hs
        by_cases h : q < 1 / 2
        · exact h
        · rw [if_neg h] at hs
          exact absurd hs (List.not_mem_nil s)
    · intro h
      refine ⟨⟨SugType.Portfolio, "OVERALL", "Consider risk/return optimization",
        Severity.medium⟩, ?_, rfl⟩
      refine List.mem_append.2 (Or.inr ?_)
      rw [hport, if_pos h]
      exact List.mem_singleton.2 rfl
  · intro h
    refine List.mem_append.2 (Or.inr ?_)
    rw [hport, if_pos h]
    exact List.mem_singleton.2 rfl

/-- C5 (witness): a Sharpe ratio of 0.499999 fires the Portfolio
suggestion, a Sharpe ratio of exactly 0.5 does not. -/
theorem C5_witness :
    ((∃ s ∈ [(⟨SugType.Portfolio, "OVERALL", "Consider risk/return optimization",
          Severity.medium⟩ : Suggestion)], s.type = SugType.Portfolio)
        ↔ (499999 / 1000000 : ℚ) < 1 / 2)
    ∧ ((∃ s ∈ ([] : List Suggestion), s.type = SugType.Portfolio)
        ↔ (1 / 2 : ℚ) < 1 / 2) := by
  constructor
  · exact (C5_sharpe_rule ⟨.fin 0 1, .fin 0 1, .fin 1 1, .fin (499999 / 1000000) 1, .fin 0 1⟩
      [] [(0, 1)] (0, 1) (0, 1) (499999 / 1000000) _ rfl rfl rfl (by rfl)).1
  · exact (C5_sharpe_rule ⟨.fin 0 1, .fin 0 1, .fin 1 1, .fin (1 / 2) 1, .fin 0 1⟩
      [] [(0, 1)] (0, 1) (0, 1) (1 / 2) _ rfl rfl rfl (by rfl)).1

theorem portSuggestion_type (metrics : PerfMetrics) (s : Suggestion)
    (hs : s ∈ portSuggestion metrics) : s.type = SugType.Portfolio := by
  unfold portSuggestion at hs
  split at hs
  · rcases List.mem_singleton.1 hs with rfl
    rfl
  · exact absurd hs (List.not_mem_nil s)

/-- In an association list with distinct keys, a key determines its
value. -/
theorem nodup_keys_eq {α β : Type} {l : List (α × β)}
    (h : (l.map Prod.fst).Nodup) {a : α} {b₁ b₂ : β}
    (h1 : (a, b₁) ∈ l) (h2 : (a, b₂) ∈ l) : b₁ = b₂ := by
  induction l with
  | nil => exact absurd h1 (List.not_mem_nil _)
  | cons x t ih =>
      simp only [List.map_cons, List.nodup_cons] at h
      rcases List.mem_cons.1 h1 with he1 | ht1 <;> rcases List.mem_cons.1 h2 with he2 | ht2
      · rw [← he1] at he2
        exact (Prod.mk.injEq .. ▸ he2).2.symm
      · exfalso
        refine h.1 ?_
        rw [← he1]
        exact List.mem_map.2 ⟨(a, b₂), ht2, rfl⟩
      · exfalso
        refine h.1 ?_
        rw [← he2]
        exact List.mem_map.2 ⟨(a, b₁), ht1, rfl⟩
      · exact ih h.2 ht1 ht2

/-- The full characterisation of the rule-2 (underperformance) suggestions
in a completed run, for a fixed entry of the contributions dict with
distinct keys: emitted iff the stored return is negative and more than 5
points below the market, with the stored severity. -/
theorem performance_rule (metrics : PerfMetrics)
    (contributions : List (Sym × Contribution)) (ns : Series)
    (first last : Date × ℚ) (sug : List Suggestion) (sym : Sym) (c : Contribution)
    (hhead : ns.head? = some first) (hlast : ns.getLast? = some last)
    (hok : generate_optimization_suggestions metrics contributions (some ns) = .ok sug)
    (hmem : (sym, c) ∈ contributions)
    (hnodup : (contributions.map (·.1)).Nodup) :
    ((∃ s ∈ sug, s.type = SugType.Performance ∧ s.symbol = sym)
      ↔ (c.ret < 0 ∧ c.ret < (last.2 / first.2 - 1) - 1 / 20))
    ∧ ((c.ret < 0 ∧ c.ret < (last.2 / first.2 - 1) - 1 / 20) →
        (⟨SugType.Performance, sym, "Consider replacing or reducing",
          if c.ret < -(1 / 10 : ℚ) then Severity.high else Severity.medium⟩ : Suggestion)
          ∈ sug)
    ∧ (∀ s ∈ sug, s.type = SugType.Performance → s.symbol = sym →
        s.severity = (if c.ret < -(1 / 10 : ℚ) then Severity.high else Severity.medium)) := by
  rw [generate_eq metrics contributions ns first last hhead hlast] at hok
  obtain rfl : divSuggestions contributions
      ++ perfSuggestions (last.2 / first.2 - 1) contributions
      ++ corrSuggestion contributions ++ portSuggestion metrics = sug :=
    Except.ok.inj hok
  have hinperf : (c.ret < 0 ∧ c.ret < (last.2 / first.2 - 1) - 1 / 20) →
      (⟨SugType.Performance, sym, "Consider replacing or reducing",
        if c.ret < -(1 / 10 : ℚ) then Severity.high else Severity.medium⟩ : Suggestion)
        ∈ divSuggestions contributions
          ++ perfSuggestions (last.2 / first.2 - 1) contributions
          ++ corrSuggestion contributions ++ portSuggestion metrics := by
    intro hcond
    refine List.mem_append.2 (Or.inl (List.mem_append.2 (Or.inl
      (List.mem_append.2 (Or.inr ?_)))))
    exact (perfSuggestions_mem _ _ _).2 ⟨(sym, c), hmem, hcond, rfl⟩
  have hmemperf : ∀ s, s ∈ divSuggestions contributions
      ++ perfSuggestions (last.2 / first.2 - 1) contributions
      ++ corrSuggestion contributions ++ portSuggestion metrics →
      s.type = SugType.Performance → s.symbol = sym →
      (c.ret < 0 ∧ c.ret < (last.2 / first.2 - 1) - 1 / 20)
        ∧ s = ⟨SugType.Performance, sym, "Consider replacing or reducing",
            if c.ret < -(1 / 10 : ℚ) then Severity.high else Severity.medium⟩ := by
    intro s hs hty hsym
    rcases List.mem_append.1 hs with hs | hs
    · rcases List.mem_append.1 hs with hs | hs
      · rcases List.mem_append.1 hs with hs | hs
        · exact absurd ((divSuggestions_type _ s hs).symm.trans hty)
            (by intro h; exact SugType.noConfusion h)
        · obtain ⟨sc, hsc, hcond, rfl⟩ := (perfSuggestions_mem _ _ _).1 hs
          have hsc1 : sc.1 = sym := hsym
          have hc2 : sc.2 = c := by
            refine nodup_keys_eq hnodup ?_ hmem
            rw [← hsc1]
            exact hsc
          rw [hc2] at hcond
          refine ⟨hcond, ?_⟩
          rw [Suggestion.mk.injEq]
          exact ⟨rfl, hsym, rfl, by rw [hc2]⟩
      · exact absurd ((corrSuggestion_type _ s hs).symm.trans hty)
          (by intro h; exact SugType.noConfusion h)
    · exact absurd ((portSuggestion_type _ s hs).symm.trans hty)
        (by intro h; exact SugType.noConfusion h)
  refine ⟨⟨?_, ?_⟩, hinperf, ?_⟩
  · rintro ⟨s, hs, hty, hsym⟩
    exact (hmemperf s hs hty hsym).1
  · intro hcond
    exact ⟨_, hinperf hcond, rfl, rfl⟩
  · intro s hs hty hsym
    rw [(hmemperf s hs hty hsym).2]

/-! ## C6: the underperformance rule -/

/-- C6: a Performance suggestion is emitted for a symbol exactly when its
stored return is negative and more than 0.05 below
`market_return = benchmark last close / benchmark first close - 1`, with
severity high exactly when that return is below -0.10 (medium
otherwise). -/
theorem C6_underperformance (metrics : PerfMetrics)
    (contributions : List (Sym × Contribution)) (ns : Series)
    (first last : Date × ℚ) (sug : List Suggestion) (sym : Sym) (c : Contribution)
    (hhead : ns.head? = some first) (hlast : ns.getLast? = some last)
    (hok : generate_optimization_suggestions metrics contributions (some ns) = .ok sug)
    (hmem : (sym, c) ∈ contributions)
    (hnodup : (contributions.map (·.1)).Nodup) :
    ((∃ s ∈ sug, s.type = SugType.Performance ∧ s.symbol = sym)
      ↔ (c.ret < 0 ∧ c.ret < (last.2 / first.2 - 1) - 1 / 20))
    ∧ ((c.ret < 0 ∧ c.ret < (last.2 / first.2 - 1) - 1 / 20) →
        (⟨SugType.Performance, sym, "Consider replacing or reducing",
          if c.ret < -(1 / 10 : ℚ) then Severity.high else Severity.medium⟩ : Suggestion)
          ∈ sug)
    ∧ (∀ s ∈ sug, s.type = SugType.Performance → s.symbol = sym →
        s.severity = (if c.ret < -(1 / 10 : ℚ) then Severity.high else Severity.medium)) :=
  performance_rule metrics contributions ns first last sug sym c hhead hlast hok
    hmem hnodup

/-- C6 (witness): a stock that returned -20% against a flat market gets a
high-severity Performance suggestion. -/
theorem C6_witness :
    ((∃ s ∈ [(⟨SugType.Performance, "A", "Consider replacing or reducing",
          Severity.high⟩ : Suggestion)],
        s.type = SugType.Performance ∧ s.symbol = "A")
      ↔ ((⟨1, 1, 1, 0, -(2 / 10), 0, none, none, []⟩ : Contribution).ret < 0
          ∧ (⟨1, 1, 1, 0, -(2 / 10), 0, none, none, []⟩ : Contribution).ret
            < ((1 : ℚ) / 1 - 1) - 1 / 20)) := by
  have h := C6_underperformance ⟨.fin 1 1, .fin 1 1, .fin 1 1, .fin 1 1, .fin 1 1⟩
    [("A", ⟨1, 1, 1, 0, -(2 / 10), 0, none, none, []⟩)] [(0, 1), (1, 1)]
    (0, 1) (1, 1) [⟨SugType.Performance, "A", "Consider replacing or reducing",
      Severity.high⟩] "A" ⟨1, 1, 1, 0, -(2 / 10), 0, none, none, []⟩
    rfl rfl (by rfl) (by decide) (by decide)
  exact h.1

/-! ## C10: which contribution fields are rounded -/

/-- C10: in every stored contribution, `current_price`, `current_value`,
`return` and `contribution_to_return` are rounded to 2 decimals (ties to
even), while `weight`, `correlation` and `beta` are stored unrounded; the
downstream underperformance rule therefore compares the rounded return —
not the raw one — against its 0, `market_return - 0.05` and -0.10
thresholds. -/
theorem C10_rounding (p : Portfolio) (sd : StockData) (nifty : Option Series)
    (fm : Sym → FinBlob) (out : List (Sym × Contribution)) (sym : Sym)
    (c : Contribution) (series : Series) (last : Date × ℚ) (avg T : ℚ)
    (hok : analyze_stock_contributions p sd nifty fm = .ok out)
    (hmem : (sym, c) ∈ out)
    (hser : sd.lookup sym = some series)
    (hlast : series.getLast? = some last)
    (havg : p.avg_costs.lookup sym = some avg)
    (hT : totalInvestmentGo p.avg_costs sd 0 p.holdings = .ok T) :
    (c.current_price = round2 last.2
      ∧ c.current_value = round2 (last.2 * c.quantity)
      ∧ c.ret = round2 (last.2 / avg - 1)
      ∧ c.contribution_to_return
          = round2 ((last.2 / avg - 1) * (last.2 * c.quantity / T))
      ∧ c.weight = last.2 * c.quantity / T
      ∧ c.correlation_to_market = (corrBeta series nifty).1
      ∧ c.beta = (corrBeta series nifty).2)
    ∧ (∀ metrics ns first lastn sug,
        ns.head? = some first → ns.getLast? = some lastn →
        generate_optimization_suggestions metrics out (some ns) = .ok sug →
        (out.map (·.1)).Nodup →
        ((∃ s ∈ sug, s.type = SugType.Performance ∧ s.symbol = sym)
          ↔ (round2 (last.2 / avg - 1) < 0
              ∧ round2 (last.2 / avg - 1) < (lastn.2 / first.2 - 1) - 1 / 20))) := by
  obtain ⟨T', ht', hgo⟩ := analyze_ok_parts hok
  obtain rfl : T = T' := by
    have h2 := ht'.symm.trans hT
    exact (Except.ok.inj h2).symm
  obtain ⟨qty, series', hmem', hser', hmk⟩ := contributionsGo_ok_mem hgo hmem
  rw [hser] at hser'
  have hse : series = series' := by injection hser'
  subst hse
  obtain ⟨last', avg', hl, ha, hc⟩ := mkContribution_ok hmk
  obtain rfl : last = last' := by
    have h2 := hl.symm.trans hlast
    exact (Option.some.inj h2).symm
  obtain rfl : avg = avg' := by
    have h2 := ha.symm.trans havg
    exact (Option.some.inj h2).symm
  have hq : c.quantity = qty := by rw [hc]
  have hfields : c.current_price = round2 last.2
      ∧ c.current_value = round2 (last.2 * c.quantity)
      ∧ c.ret = round2 (last.2 / avg - 1)
      ∧ c.contribution_to_return
          = round2 ((last.2 / avg - 1) * (last.2 * c.quantity / T))
      ∧ c.weight = last.2 * c.quantity / T
      ∧ c.correlation_to_market = (corrBeta series nifty).1
      ∧ c.beta = (corrBeta series nifty).2 := by
    rw [hq]
    rw [hc]
    exact ⟨rfl, rfl, rfl, rfl, rfl, rfl, rfl⟩
  refine ⟨hfields, ?_⟩
  intro metrics ns first lastn sug hhead hlastn hoksug hnodup
  have hrule := performance_rule metrics out ns first lastn sug sym c hhead hlastn
    hoksug hmem hnodup
  rw [hfields.2.2.1] at hrule
  exact hrule.1

/-- C10 (witness): average cost 3, latest price 10 — the raw return 7/3 is
stored as its 2-decimal rounding 2.33, the weight 10/3 is stored unrounded,
and the downstream rule sees the rounded 2.33. -/
theorem C10_witness :
    ((⟨2, 10, 20, 10 / 3, 233 / 100, 389 / 50, none, none, []⟩ : Contribution).current_price
        = round2 10
      ∧ (⟨2, 10, 20, 10 / 3, 233 / 100, 389 / 50, none, none, []⟩ : Contribution).current_value
        = round2 (10 * 2)
      ∧ (⟨2, 10, 20, 10 / 3, 233 / 100, 389 / 50, none, none, []⟩ : Contribution).ret
        = round2 ((10 : ℚ) / 3 - 1)
      ∧ (⟨2, 10, 20, 10 / 3, 233 / 100, 389 / 50, none, none, []⟩ :
          Contribution).contribution_to_return
        = round2 (((10 : ℚ) / 3 - 1) * (10 * 2 / 6))
      ∧ (⟨2, 10, 20, 10 / 3, 233 / 100, 389 / 50, none, none, []⟩ : Contribution).weight
        = 10 * 2 / 6
      ∧ (⟨2, 10, 20, 10 / 3, 233 / 100, 389 / 50, none, none, []⟩ :
          Contribution).correlation_to_market = (corrBeta [(0, 10)] none).1
      ∧ (⟨2, 10, 20, 10 / 3, 233 / 100, 389 / 50, none, none, []⟩ : Contribution).beta
        = (corrBeta [(0, 10)] none).2)
    ∧ ((∃ s ∈ [(⟨SugType.Diversification, "A", "Consider reducing position",
            Severity.medium⟩ : Suggestion),
          ⟨SugType.Portfolio, "OVERALL", "Consider risk/return optimization",
            Severity.medium⟩],
          s.type = SugType.Performance ∧ s.symbol = "A")
        ↔ (round2 ((10 : ℚ) / 3 - 1) < 0
            ∧ round2 ((10 : ℚ) / 3 - 1) < ((1 : ℚ) / 1 - 1) - 1 / 20)) := by
  have h := C10_rounding ⟨[("A", 2)], [("A", 3)]⟩ [("A", [(0, 10)])] none (fun _ => [])
    [("A", ⟨2, 10, 20, 10 / 3, 233 / 100, 389 / 50, none, none, []⟩)] "A"
    ⟨2, 10, 20, 10 / 3, 233 / 100, 389 / 50, none, none, []⟩ [(0, 10)] (0, 10) 3 6
    (by rfl) (by decide) rfl rfl rfl (by rfl)
  exact ⟨h.1, h.2 ⟨.fin 0 1, .fin 0 1, .fin 1 1, .fin 0 1, .fin 0 1⟩ [(0, 1)] (0, 1) (0, 1)
    [⟨SugType.Diversification, "A", "Consider reducing position", Severity.medium⟩,
     ⟨SugType.Portfolio, "OVERALL", "Consider risk/return optimization", Severity.medium⟩]
    rfl rfl (by rfl) (by decide)⟩

/-! ## C9: behaviour when benchmark data is unavailable -/

/-- C9: when the benchmark fetch returned `None`, the contribution analysis
does degrade gracefully — the run completes, a symbol without price data
("B" here) is excluded and correlation/beta are null — but the suggestion
generation does **not**: `nifty_prices = self.nifty_data["Close"]` runs
before any guard and raises `TypeError` on `None`, so the claim that both
stages complete is wrong on the code. -/
theorem C9_benchmark_none :
    (analyze_stock_contributions ⟨[("A", 1), ("B", 1)], [("A", 2), ("B", 2)]⟩
        [("A", [(0, 4)])] none (fun _ => [])).map
      (fun out => out.map (fun sc => (sc.1, sc.2.correlation_to_market, sc.2.beta)))
      = .ok [("A", none, none)]
    ∧ generate_optimization_suggestions ⟨.fin 0 1, .fin 0 1, .fin 1 1, .fin 0 1, .fin 0 1⟩
        [("A", blankContribution)] none = .error .typeError := by
  exact ⟨rfl, rfl⟩

/-! ## C7: the correlation-clustering rule -/

/-- C7 (counterexample): correlations 0.0 and 0.1 are both non-null and
differ by less than 0.2, so the claim requires the pair to be recorded and
one Correlation suggestion to be emitted; the code emits none, because the
Python test `corr1 and corr2 and ...` treats the float `0.0` as falsy and
skips the pair. -/
theorem C7_counterexample :
    (([("A", (⟨0, 0, 0, 0, 0, 0, some (.fin 0 1), some (.fin 0 1), []⟩ : Contribution)),
        ("B", ⟨0, 0, 0, 0, 0, 0, some (.fin (1 / 10) 1), some (.fin (1 / 10) 1), []⟩)] :
          List (Sym × Contribution)).lookup "A").bind (·.correlation_to_market)
        = some (.fin 0 1)
    ∧ (([("A", (⟨0, 0, 0, 0, 0, 0, some (.fin 0 1), some (.fin 0 1), []⟩ : Contribution)),
        ("B", ⟨0, 0, 0, 0, 0, 0, some (.fin (1 / 10) 1), some (.fin (1 / 10) 1), []⟩)] :
          List (Sym × Contribution)).lookup "B").bind (·.correlation_to_market)
        = some (.fin (1 / 10) 1)
    ∧ |(0 : ℚ) - 1 / 10| < 1 / 5
    ∧ generate_optimization_suggestions ⟨.fin 1 1, .fin 1 1, .fin 1 1, .fin 1 1, .fin 1 1⟩
        [("A", ⟨0, 0, 0, 0, 0, 0, some (.fin 0 1), some (.fin 0 1), []⟩),
         ("B", ⟨0, 0, 0, 0, 0, 0, some (.fin (1 / 10) 1), some (.fin (1 / 10) 1), []⟩)]
        (some [(0, 1)]) = .ok [] := by
  refine ⟨rfl, rfl, ?_, rfl⟩
  rw [show |(0 : ℚ) - 1 / 10| = 1 / 10 by norm_num]
  norm_num

theorem finSign_one_nonpos (a : ℚ) : PFloat.finSign a 1 ≤ 0 ↔ a ≤ 0 := by
  rw [finSign_one]
  rcases lt_trichotomy a 0 with h | rfl | h
  · rw [if_neg h.ne, if_neg (not_lt.2 h.le)]
    simp [h.le]
  · simp
  · rw [if_neg h.ne', if_pos h]
    simp [not_le.2 h]

theorem finSign_one_neg (a : ℚ) : PFloat.finSign a 1 < 0 ↔ a < 0 := by
  rw [finSign_one]
  rcases lt_trichotomy a 0 with h | rfl | h
  · rw [if_neg h.ne, if_neg (not_lt.2 h.le)]
    simp [h]
  · simp
  · rw [if_neg h.ne', if_pos h]
    simp [not_lt.2 h.le]

theorem finSign_one_nonneg (a : ℚ) : 0 ≤ PFloat.finSign a 1 ↔ 0 ≤ a := by
  rw [finSign_one]
  rcases lt_trichotomy a 0 with h | rfl | h
  · rw [if_neg h.ne, if_neg (not_lt.2 h.le)]
    simp [not_le.2 h]
  · simp
  · rw [if_neg h.ne', if_pos h]
    simp [h.le]

/-- Python truthiness agrees with nonzeroness on rational float values. -/
theorem truthy_ofQ (q : ℚ) : (PFloat.fin q 1).truthy = decide (q ≠ 0) := by
  unfold PFloat.truthy
  simp

/-- The float equality test agrees with rational equality on rational
values. -/
theorem feq_ofQ (x y : ℚ) : PFloat.feq (.fin x 1) (.fin y 1) = decide (x = y) := by
  have hred : PFloat.feq (.fin x 1) (.fin y 1)
      = decide (PFloat.finSign x 1 = PFloat.finSign y 1 ∧ x ^ 2 * 1 = y ^ 2 * 1) := rfl
  rw [hred, decide_eq_decide]
  constructor
  · rintro ⟨hs, hsq⟩
    rw [mul_one, mul_one] at hsq
    rcases sq_eq_sq_iff_eq_or_eq_neg.1 hsq with rfl | rfl
    · rfl
    · rcases lt_trichotomy y 0 with hy | rfl | hy
      · exfalso
        rw [finSign_one, finSign_one, if_neg (neg_ne_zero.2 hy.ne),
          if_pos (neg_pos.2 hy), if_neg hy.ne, if_neg (not_lt.2 hy.le)] at hs
        norm_num at hs
      · norm_num
      · exfalso
        rw [finSign_one, finSign_one, if_neg (neg_ne_zero.2 hy.ne'),
          if_neg (not_lt.2 (neg_nonpos.2 hy.le)), if_neg hy.ne', if_pos hy] at hs
        norm_num at hs
  · rintro rfl
    exact ⟨rfl, rfl⟩

/-- The one-radical-versus-shifted-radical comparison agrees with plain
rational comparison on rational values. -/
theorem radLtAdd_ofQ (a₁ a₂ c : ℚ) :
    PFloat.radLtAdd a₁ 1 a₂ 1 c = decide (a₁ < a₂ + c) := by
  unfold PFloat.radLtAdd
  rw [lt_ofQ, feq_ofQ, lt_ofQ, lt_ofQ]
  by_cases h1 : -c < a₂
  · rw [if_pos (decide_eq_true h1)]
    by_cases h2 : a₁ ≤ 0
    · rw [if_pos ((finSign_one_nonpos a₁).2 h2)]
      exact (decide_eq_true (lt_of_le_of_lt h2 (by linarith))).symm
    · rw [if_neg (fun hc => h2 ((finSign_one_nonpos a₁).1 hc))]
      rw [decide_eq_decide]
      push_neg at h2
      constructor
      · intro h
        nlinarith
      · intro h
        nlinarith
  · rw [if_neg (by simpa using h1)]
    by_cases h2 : a₂ = -c
    · rw [if_pos (decide_eq_true h2)]
      have hzero : a₂ + c = 0 := by rw [h2]; ring
      rw [decide_eq_decide, finSign_one_neg, hzero]
    · rw [if_neg (by simpa using h2)]
      have ha2 : a₂ + c < 0 := by
        push_neg at h1
        rcases lt_or_eq_of_le h1 with h | h
        · linarith
        · exact absurd h h2
      by_cases h3 : 0 ≤ a₁
      · rw [if_pos ((finSign_one_nonneg a₁).2 h3)]
        symm
        rw [decide_eq_false_iff_not]
        intro h
        linarith
      · rw [if_neg (fun hc => h3 ((finSign_one_nonneg a₁).1 hc))]
        rw [decide_eq_decide]
        push_neg at h3
        constructor
        · intro h
          nlinarith
        · intro h
          nlinarith

/-- The modelled `abs(x - y) < c` agrees with the rational statement on
rational values. -/
theorem absSubLt_ofQ (q₁ q₂ c : ℚ) :
    PFloat.absSubLt (.fin q₁ 1) (.fin q₂ 1) c = decide (|q₁ - q₂| < c) := by
  have hred : PFloat.absSubLt (.fin q₁ 1) (.fin q₂ 1) c
      = (PFloat.radLtAdd q₁ 1 q₂ 1 c && PFloat.radLtAdd q₂ 1 q₁ 1 c) := rfl
  rw [hred, radLtAdd_ofQ, radLtAdd_ofQ]
  have hiff : (|q₁ - q₂| < c) ↔ (q₁ < q₂ + c ∧ q₂ < q₁ + c) := by
    rw [abs_sub_lt_iff]
    constructor
    · rintro ⟨h1, h2⟩
      exact ⟨by linarith, by linarith⟩
    · rintro ⟨h1, h2⟩
      exact ⟨by linarith, by linarith⟩
  by_cases hA : q₁ < q₂ + c <;> by_cases hB : q₂ < q₁ + c <;>
    simp [hA, hB, hiff]

theorem lookup_mem {β : Type} {l : List (Sym × β)} {a : Sym} {b : β}
    (h : l.lookup a = some b) : (a, b) ∈ l := by
  induction l with
  | nil => exact Option.noConfusion h
  | cons x t ih =>
      obtain ⟨k, v⟩ := x
      unfold List.lookup at h
      split at h
      · rename_i hbeq
        obtain rfl : v = b := Option.some.inj h
        obtain rfl : a = k := beq_iff_eq.1 hbeq
        exact List.mem_cons_self ..
      · exact List.mem_cons_of_mem _ (ih h)

theorem upperPairs_mem {α : Type} {l : List α} {pr : α × α}
    (h : pr ∈ upperPairs l) : pr.1 ∈ l ∧ pr.2 ∈ l := by
  induction l with
  | nil => exact absurd h (List.not_mem_nil pr)
  | cons x t ih =>
      simp only [upperPairs, List.mem_append, List.mem_map] at h
      rcases h with ⟨y, hy, rfl⟩ | h
      · exact ⟨List.mem_cons_self .., List.mem_cons_of_mem _ hy⟩
      · obtain ⟨h1, h2⟩ := ih h
        exact ⟨List.mem_cons_of_mem _ h1, List.mem_cons_of_mem _ h2⟩

theorem ratValue_ofQ (q : ℚ) : PFloat.ratValue (.fin q 1) = some q := by
  show (if (1 : ℚ) = 1 then some q else if q = 0 ∨ (1 : ℚ) = 0 then some 0 else none)
    = some q
  rw [if_pos rfl]

/-- The correlation-pair test agrees with its rational statement when both
cells hold `None` or a rational float. -/
theorem truthyAbs_eq (o1 o2 : Option PFloat)
    (h1 : o1 = none ∨ ∃ q : ℚ, o1 = some (.fin q 1))
    (h2 : o2 = none ∨ ∃ q : ℚ, o2 = some (.fin q 1)) :
    (match o1, o2 with
     | some c1, some c2 => c1.truthy && c2.truthy && PFloat.absSubLt c1 c2 (1 / 5)
     | _, _ => false)
      = (match o1.bind PFloat.ratValue, o2.bind PFloat.ratValue with
         | some q1, some q2 => decide (q1 ≠ 0 ∧ q2 ≠ 0 ∧ |q1 - q2| < 1 / 5)
         | _, _ => false) := by
  rcases h1 with rfl | ⟨q1, rfl⟩
  · rfl
  · rcases h2 with rfl | ⟨q2, rfl⟩
    · rfl
    · show ((PFloat.fin q1 1).truthy && (PFloat.fin q2 1).truthy
          && PFloat.absSubLt (.fin q1 1) (.fin q2 1) (1 / 5))
        = (match PFloat.ratValue (.fin q1 1), PFloat.ratValue (.fin q2 1) with
           | some r1, some r2 => decide (r1 ≠ 0 ∧ r2 ≠ 0 ∧ |r1 - r2| < 1 / 5)
           | _, _ => false)
      rw [ratValue_ofQ, ratValue_ofQ]
      show ((PFloat.fin q1 1).truthy && (PFloat.fin q2 1).truthy
          && PFloat.absSubLt (.fin q1 1) (.fin q2 1) (1 / 5))
        = decide (q1 ≠ 0 ∧ q2 ≠ 0 ∧ |q1 - q2| < 1 / 5)
      rw [truthy_ofQ, truthy_ofQ, absSubLt_ofQ]
      by_cases hA : q1 = 0 <;> by_cases hB : q2 = 0 <;>
        by_cases hC : |q1 - q2| < 1 / 5 <;> simp [hA, hB, hC]

/-- Under rational (or null) correlation cells, the recorded
`high_correlation_pairs` are exactly the pairs the amended claim
describes. -/
theorem highCorrelationPairs_eq (contributions : List (Sym × Contribution))
    (hrat : ∀ sc ∈ contributions, sc.2.correlation_to_market = none
        ∨ ∃ q : ℚ, sc.2.correlation_to_market = some (.fin q 1)) :
    highCorrelationPairs contributions = claimPairs contributions := by
  unfold highCorrelationPairs claimPairs
  refine List.filter_congr ?_
  intro pr _
  have ho : ∀ s : Sym, ((contributions.lookup s).bind (·.correlation_to_market)) = none
      ∨ ∃ q : ℚ,
        ((contributions.lookup s).bind (·.correlation_to_market)) = some (.fin q 1) := by
    intro s
    cases hl : contributions.lookup s with
    | none => exact Or.inl rfl
    | some b =>
        rcases hrat (s, b) (lookup_mem hl) with h | ⟨q, h⟩
        · exact Or.inl (by simp only [Option.some_bind]; exact h)
        · exact Or.inr ⟨q, by simp only [Option.some_bind]; exact h⟩
  exact truthyAbs_eq _ _ (ho pr.1) (ho pr.2)

/-- C7 (amended): the recorded pairs are the unordered pairs whose
correlations are both non-null AND nonzero (Python truthiness: the float
`0.0` fails the `corr1 and corr2` test) and differ in absolute value by
less than 0.2; when any such pair exists, exactly one Correlation/low
suggestion is emitted, naming up to the first 3 recorded pairs in symbol
iteration order (and no Correlation suggestion otherwise).  Stated for
runs whose correlation cells hold rational floats (every Python float is
rational). -/
theorem C7_correlation_rule (metrics : PerfMetrics)
    (contributions : List (Sym × Contribution)) (ns : Series)
    (first last : Date × ℚ) (sug : List Suggestion)
    (hhead : ns.head? = some first) (hlast : ns.getLast? = some last)
    (hok : generate_optimization_suggestions metrics contributions (some ns) = .ok sug)
    (hrat : ∀ sc ∈ contributions, sc.2.correlation_to_market = none
        ∨ ∃ q : ℚ, sc.2.correlation_to_market = some (.fin q 1)) :
    sug.filter (fun s => s.type == SugType.Correlation)
      = (if claimPairs contributions ≠ [] then
          [⟨SugType.Correlation,
            String.intercalate ", " (((claimPairs contributions).take 3).map
              (fun pr => pr.1 ++ "/" ++ pr.2)),
            "Consider replacing one from each pair", Severity.low⟩]
        else []) := by
  rw [generate_eq metrics contributions ns first last hhead hlast] at hok
  obtain rfl : divSuggestions contributions
      ++ perfSuggestions (last.2 / first.2 - 1) contributions
      ++ corrSuggestion contributions ++ portSuggestion metrics = sug :=
    Except.ok.inj hok
  have hdiv : (divSuggestions contributions).filter
      (fun s => s.type == SugType.Correlation) = [] := by
    rw [List.filter_eq_nil_iff]
    intro s hs
    rw [divSuggestions_type contributions s hs]
    decide
  have hperf : (perfSuggestions (last.2 / first.2 - 1) contributions).filter
      (fun s => s.type == SugType.Correlation) = [] := by
    rw [List.filter_eq_nil_iff]
    intro s hs
    rw [perfSuggestions_type _ contributions s hs]
    decide
  have hport : (portSuggestion metrics).filter
      (fun s => s.type == SugType.Correlation) = [] := by
    rw [List.filter_eq_nil_iff]
    intro s hs
    rw [portSuggestion_type metrics s hs]
    decide
  rw [List.filter_append, List.filter_append, List.filter_append, hdiv, hperf, hport,
    List.nil_append, List.append_nil]
  unfold corrSuggestion
  rw [highCorrelationPairs_eq contributions hrat]
  by_cases hp : claimPairs contributions = []
  · rw [hp]
    rw [if_neg (by simp), if_neg (by simp)]
    rfl
  · have hne : (claimPairs contributions).isEmpty = false := by
      cases hcp : claimPairs contributions with
      | nil => exact absurd hcp hp
      | cons a l => rfl
    rw [if_pos (by rw [hne]; rfl), if_pos hp]
    rfl

/-- C7 (witness for the amended statement): correlations 0.1 and 0.2 are
nonzero and 0.1 apart, so the pair is recorded and exactly one
Correlation/low suggestion naming "A/B" is emitted. -/
theorem C7_witness :
    ([(⟨SugType.Correlation, "A/B", "Consider replacing one from each pair",
        Severity.low⟩ : Suggestion)].filter (fun s => s.type == SugType.Correlation))
      = (if claimPairs
            [("A", (⟨0, 0, 0, 0, 0, 0, some (.fin (1 / 10) 1), some (.fin (1 / 10) 1),
              []⟩ : Contribution)),
             ("B", ⟨0, 0, 0, 0, 0, 0, some (.fin (2 / 10) 1), some (.fin (2 / 10) 1), []⟩)]
            ≠ [] then
          [⟨SugType.Correlation,
            String.intercalate ", " (((claimPairs
              [("A", (⟨0, 0, 0, 0, 0, 0, some (.fin (1 / 10) 1), some (.fin (1 / 10) 1),
                []⟩ : Contribution)),
               ("B", ⟨0, 0, 0, 0, 0, 0, some (.fin (2 / 10) 1), some (.fin (2 / 10) 1),
                []⟩)]).take 3).map
              (fun pr => pr.1 ++ "/" ++ pr.2)),
            "Consider replacing one from each pair", Severity.low⟩]
        else []) := by
  refine C7_correlation_rule ⟨.fin 1 1, .fin 1 1, .fin 1 1, .fin 1 1, .fin 1 1⟩
    _ [(0, 1)] (0, 1) (0, 1) _ rfl rfl (by rfl) ?_
  intro sc hsc
  rcases List.mem_cons.1 hsc with rfl | hsc2
  · exact Or.inr ⟨1 / 10, rfl⟩
  · rcases List.mem_cons.1 hsc2 with rfl | hsc3
    · exact Or.inr ⟨2 / 10, rfl⟩
    · exact absurd hsc3 (List.not_mem_nil sc)

end PortfolioAnalyzer
